import Mathlib

/-! Leaderboard backend (`src/backend/server.js`).

A shallow embedding of the aggregation pipeline of the leaderboard server:
`slugify`, the remote query client `moodleGet`, the traversal of
`buildLeaderboard`, the fixed data of `buildMockLeaderboard` and the handler of
`GET /api/leaderboard`.

Modelling conventions.

* JavaScript strings are Lean strings; the functions that work character by
  character are written over `List Char`.
* An `async` function is a function returning a `Run`: the value it resolves to
  or the message of the error it throws, together with the `moodleGet`
  invocations it made, in order.
* The remote web service is a `Moodle` record: for each consumed web-service
  function, what `fetch` followed by `res.ok` and `res.json()` yields for a
  request.
* An id is a `JsInteger`, a JavaScript Number holding an integer, and is
  printed as `Number::toString` prints it: the shortest digits that read back
  as the same double, in plain decimal below `10^21` and in exponential form
  from there on.
-/

namespace Leaderboard

/-! ## JavaScript numbers that hold an integer -/

/-- The bit length of a natural number, by repeated halving; the first argument
bounds the number of halvings. -/
def bitLengthAux : Nat → Nat → Nat
  | 0, _ => 0
  | fuel + 1, m => if m = 0 then 0 else bitLengthAux fuel (m / 2) + 1

/-- The number of binary digits of `m` (0 for 0). -/
def bitLength (m : Nat) : Nat := bitLengthAux m m

/-- Rounding of a natural number to a 53-bit significand, to nearest with ties
to even: the value an IEEE 754 double takes for it. Below `2^53` every natural
number is its own double. -/
def roundToDouble (m : Nat) : Nat :=
  if m < 2 ^ 53 then m
  else
    if m % 2 ^ (bitLength m - 53) > 2 ^ (bitLength m - 54) ∨
        (m % 2 ^ (bitLength m - 53) = 2 ^ (bitLength m - 54) ∧
          (m / 2 ^ (bitLength m - 53)) % 2 = 1) then
      (m / 2 ^ (bitLength m - 53) + 1) * 2 ^ (bitLength m - 53)
    else (m / 2 ^ (bitLength m - 53)) * 2 ^ (bitLength m - 53)

/-- A JavaScript Number whose value is an integer: the magnitude is a double
(rounding leaves it as it is) and finite (at most 1024 bits). The ids of
categories, courses and quizzes are such numbers. -/
structure JsInteger where
  value : Int
  isNumber : roundToDouble value.natAbs = value.natAbs ∧ bitLength value.natAbs ≤ 1024
deriving DecidableEq, Repr

/-- The value `s × 10^(n - k)` of the decimal with digits `s` and `n` digits
before the decimal point, `k` being the number of digits of `s`. -/
def decimalValue (s n : Nat) : Nat := s * 10 ^ (n - (Nat.toDigits 10 s).length)

/-- The digits `s` of `k` places for which `s × 10^(n - k)` is read back as the
double `v`, if there are any: the candidates are the two `k`-digit numbers
around `v / 10^(n - k)`, and of two that qualify the one nearer to `v` is
taken, the even one on a tie. -/
def shortestAt (v n k : Nat) : Option Nat :=
  let lo := v / 10 ^ (n - k)
  let hi := lo + 1
  let okLo := roundToDouble (decimalValue lo n) == v
  let okHi := decide (hi < 10 ^ k) && roundToDouble (decimalValue hi n) == v
  if okLo && okHi then
    some (if v - decimalValue lo n < decimalValue hi n - v then lo
      else if decimalValue hi n - v < v - decimalValue lo n then hi
      else if lo % 2 = 0 then lo else hi)
  else if okLo then some lo
  else if okHi then some hi
  else none

/-- The search for the least number of digits `k`, from `k` upwards; when the
bound is used up the digits are those of `v` itself. -/
def shortestSearch (v n : Nat) : Nat → Nat → Nat × Nat
  | 0, _ => (v, n)
  | fuel + 1, k =>
    match shortestAt v n k with
    | some s => (s, n)
    | none => shortestSearch v n fuel (k + 1)

/-- The integers `s` and `n` of `Number::toString` for a double `v` that is a
natural number: `s × 10^(n - k)` is read back as `v`, with the number `k` of
digits of `s` as small as possible (at most 17). The first case is the power of
ten just above `v`. -/
def shortestDecimal (v : Nat) : Nat × Nat :=
  if roundToDouble (decimalValue 1 ((Nat.toDigits 10 v).length + 1)) = v then
    (1, (Nat.toDigits 10 v).length + 1)
  else shortestSearch v (Nat.toDigits 10 v).length (min (Nat.toDigits 10 v).length 17) 1

/-- The text of `Number::toString` from `s` and `n`, for `k ≤ n`: up to
`n = 21` the digits of `s` followed by `n - k` zeros, beyond that the
exponential form, `d.ddde+x` or `de+x` with `x = n - 1`. -/
def formatDecimal (s n : Nat) : List Char :=
  if n ≤ 21 then Nat.toDigits 10 s ++ List.replicate (n - (Nat.toDigits 10 s).length) '0'
  else
    match Nat.toDigits 10 s with
    | [] => []
    | d :: rest =>
      (if rest = [] then [d] else d :: '.' :: rest) ++ ['e', '+'] ++ Nat.toDigits 10 (n - 1)

/-- The text `String(v)` for a double `v` that is a natural number. -/
def natToJsString (v : Nat) : List Char :=
  formatDecimal (shortestDecimal v).1 (shortestDecimal v).2

/-- The text `String(x)`, which is also what a template literal inserts, for a
Number holding an integer. -/
def JsInteger.toJsString (x : JsInteger) : String :=
  match x.value with
  | Int.ofNat v => String.mk (natToJsString v)
  | Int.negSucc v => String.mk ('-' :: natToJsString (v + 1))

/-! ## Configuration and data -/

/-- The three module constants the core reads: `MOODLE_BASE_URL`, `MOODLE_TOKEN`
(both `""` when the variable is unset) and the boolean `USE_MOCK`. -/
structure Config where
  MOODLE_BASE_URL : String
  MOODLE_TOKEN : String
  USE_MOCK : Bool

/-- A category object of `core_course_get_categories`; `name` and `idnumber`
may be missing. -/
structure Category where
  id : JsInteger
  name : Option String
  idnumber : Option String
deriving DecidableEq, Repr

/-- A course object; only `id` is read. -/
structure Course where
  id : JsInteger
deriving DecidableEq, Repr

/-- A quiz object; `grade` may be missing. -/
structure Quiz where
  id : JsInteger
  grade : Option Int
deriving DecidableEq, Repr

/-- An element of a leaderboard array. The objects of `buildLeaderboard` carry
an `id`, those of `buildMockLeaderboard` do not. -/
structure Entry where
  id : Option JsInteger
  name : Option String
  shortname : String
  logo : String
  tasksCompleted : Nat
deriving DecidableEq, Repr

/-! ## slugify -/

/-- The character class `[a-z0-9]`: code points 97 to 122 and 48 to 57. -/
def isSlugChar (c : Char) : Bool :=
  (decide (97 ≤ c.toNat) && decide (c.toNat ≤ 122)) ||
    (decide (48 ≤ c.toNat) && decide (c.toNat ≤ 57))

/-- The code points removed by `String.prototype.trim`: the ECMAScript
`WhiteSpace` and `LineTerminator` productions. -/
def isJsWhitespace (c : Char) : Bool :=
  (decide (9 ≤ c.toNat) && decide (c.toNat ≤ 13)) || c.toNat == 32 || c.toNat == 160 ||
    c.toNat == 5760 || (decide (8192 ≤ c.toNat) && decide (c.toNat ≤ 8202)) ||
    c.toNat == 8232 || c.toNat == 8233 || c.toNat == 8239 || c.toNat == 8287 ||
    c.toNat == 12288 || c.toNat == 65279

/-- The method `.trim()`. -/
def jsTrim (s : List Char) : List Char :=
  (s.dropWhile isJsWhitespace).rdropWhile isJsWhitespace

/-- Lower-casing of one character. `A` to `Z` map to `a` to `z`; the Kelvin sign
U+212A maps to `k` and U+0130 maps to `i` followed by U+0307. These are the only
characters whose lower-case form contains an ASCII letter; every other
character is left as it is, since its lower-case form lies outside `[a-z0-9]`
exactly as the character itself does, and `slugify` only looks at membership in
that class afterwards. -/
def lowerChar (c : Char) : List Char :=
  if 65 ≤ c.toNat ∧ c.toNat ≤ 90 then [Char.ofNat (c.toNat + 32)]
  else if c.toNat = 8490 then ['k']
  else if c.toNat = 304 then ['i', Char.ofNat 775]
  else [c]

/-- The method `.toLowerCase()`. -/
def jsToLowerCase (s : List Char) : List Char := s.flatMap lowerChar

/-- The call `.replace(/[^a-z0-9]+/g, "-")`: every maximal run of characters
outside `[a-z0-9]` becomes one hyphen. The flag says whether the scan is inside
such a run, whose hyphen was already written. -/
def replaceNonSlugRuns : Bool → List Char → List Char
  | _, [] => []
  | inRun, c :: cs =>
    if isSlugChar c then c :: replaceNonSlugRuns false cs
    else if inRun then replaceNonSlugRuns true cs
    else '-' :: replaceNonSlugRuns true cs

/-- The call `.replace(/^-+|-+$/g, "")`: the leading and the trailing run of
hyphens are removed. -/
def stripEdgeHyphens (s : List Char) : List Char :=
  (s.dropWhile (fun c => c == '-')).rdropWhile (fun c => c == '-')

/-- The body of `slugify` on the characters of its argument. -/
def slugifyChars (s : List Char) : List Char :=
  stripEdgeHyphens (replaceNonSlugRuns false (jsToLowerCase (jsTrim s)))

/-- The function `slugify` on a string argument (`String(input || "")` is then
`input` itself). -/
def slugify (input : String) : String := String.mk (slugifyChars input.data)

/-! ### The pattern `^[a-z0-9]+(-[a-z0-9]+)*$` -/

/-- States of the automaton of the pattern: nothing read yet, inside a run of
`[a-z0-9]`, just after a hyphen, and dead. -/
inductive SlugState where
  | start
  | run
  | hyphen
  | reject
deriving DecidableEq, Repr

/-- One step of the automaton. -/
def slugStep : SlugState → Char → SlugState
  | .start, c => if isSlugChar c then .run else .reject
  | .run, c => if isSlugChar c then .run else if c = '-' then .hyphen else .reject
  | .hyphen, c => if isSlugChar c then .run else .reject
  | .reject, _ => .reject

/-- Whether the whole list matches `^[a-z0-9]+(-[a-z0-9]+)*$`. -/
def matchesSlugPattern (s : List Char) : Bool :=
  decide (s.foldl slugStep SlugState.start = SlugState.run)

/-- Whether a string is slug-safe: it matches `^[a-z0-9]+(-[a-z0-9]+)*$`. -/
def slugSafe (s : String) : Bool := matchesSlugPattern s.data

/-! ## Remote query client -/

/-- One invocation of `moodleGet(fn, params)`. -/
structure MoodleCall where
  wsfunction : String
  params : List (String × String)
deriving DecidableEq, Repr

/-- The remote web service: for each consumed function, the decoded JSON reply
or the message of the error (`fetch` rejects, `res.ok` is false, or the body is
not JSON). For the two list functions the reply is the value of the field
`courses`, respectively `quizzes`, of the reply object, `none` when the object
has no such field. -/
structure Moodle where
  core_course_get_categories : Except String (List Category)
  core_course_get_courses_by_field : String → String → Except String (Option (List Course))
  mod_quiz_get_quizzes_by_courses : String → Except String (Option (List Quiz))

/-- The outcome of an `async` function: what it resolves to, or the message of
the error it throws, and the `moodleGet` invocations it made. -/
abbrev Run (α : Type) := Except String α × List MoodleCall

/-- The function `moodleGet`: throws when the base URL or the token is empty,
otherwise yields the reply of the service. -/
def moodleGet {α : Type} (cfg : Config) (call : MoodleCall) (reply : Except String α) : Run α :=
  if cfg.MOODLE_BASE_URL = "" ∨ cfg.MOODLE_TOKEN = "" then
    (Except.error "Moodle base URL or token not configured", [call])
  else (reply, [call])

/-- The function `getCategories`. -/
def getCategories (cfg : Config) (m : Moodle) : Run (List Category) :=
  moodleGet cfg ⟨"core_course_get_categories", []⟩ m.core_course_get_categories

/-- The function `getCoursesByCategory`: `data?.courses || []`. -/
def getCoursesByCategory (cfg : Config) (m : Moodle) (categoryId : JsInteger) : Run (List Course) :=
  match moodleGet cfg
      ⟨"core_course_get_courses_by_field", [("field", "category"), ("value", categoryId.toJsString)]⟩
      (m.core_course_get_courses_by_field "category" (categoryId.toJsString)) with
  | (Except.ok data, calls) => (Except.ok (data.getD []), calls)
  | (Except.error e, calls) => (Except.error e, calls)

/-- The function `getQuizzesByCourse`: `data?.quizzes || []`. -/
def getQuizzesByCourse (cfg : Config) (m : Moodle) (courseId : JsInteger) : Run (List Quiz) :=
  match moodleGet cfg
      ⟨"mod_quiz_get_quizzes_by_courses", [("courseids[0]", courseId.toJsString)]⟩
      (m.mod_quiz_get_quizzes_by_courses (courseId.toJsString)) with
  | (Except.ok data, calls) => (Except.ok (data.getD []), calls)
  | (Except.error e, calls) => (Except.error e, calls)

/-- The function `countPassedAttempts`: the placeholder returns 0 and calls
nothing. -/
def countPassedAttempts (_quizId : JsInteger) (_passingGrade : Int) : Nat := 0

/-! ## Aggregation -/

/-- The expression `a || b` for a possibly missing string `a`: `a` when it is
present and non-empty, else `b`. -/
def jsOr (a : Option String) (b : String) : String :=
  match a with
  | some s => if s = "" then b else s
  | none => b

/-- The derived shortname of a category (lines 123 and 124). -/
def deriveShortname (category : Category) : String :=
  let key := jsOr category.idnumber (jsOr category.name ("category-" ++ category.id.toJsString))
  if slugify key = "" then "category-" ++ category.id.toJsString else slugify key

/-- The object pushed on `schools` for a category and its total. -/
def schoolEntry (category : Category) (totalPassed : Nat) : Entry :=
  { id := some category.id
    name := category.name
    shortname := deriveShortname category
    logo := "/logos/" ++ deriveShortname category ++ ".png"
    tasksCompleted := totalPassed }

/-- The loop over the quizzes of a course, for a pass-count function `count`
standing for `countPassedAttempts`; `quiz.grade || 0` is the passing grade. -/
def quizLoop (count : JsInteger → Int → Nat) : List Quiz → Nat → Nat
  | [], totalPassed => totalPassed
  | quiz :: rest, totalPassed =>
    quizLoop count rest (totalPassed + count quiz.id (quiz.grade.getD 0))

/-- The loop over the courses of a category. -/
def courseLoop (cfg : Config) (m : Moodle) (count : JsInteger → Int → Nat) :
    List Course → Nat → Run Nat
  | [], totalPassed => (Except.ok totalPassed, [])
  | course :: rest, totalPassed =>
    match getQuizzesByCourse cfg m course.id with
    | (Except.error e, calls) => (Except.error e, calls)
    | (Except.ok quizzes, calls) =>
      ((courseLoop cfg m count rest (quizLoop count quizzes totalPassed)).1,
        calls ++ (courseLoop cfg m count rest (quizLoop count quizzes totalPassed)).2)

/-- The loop over the categories; `schools` is the array built so far. -/
def categoryLoop (cfg : Config) (m : Moodle) (count : JsInteger → Int → Nat) :
    List Category → List Entry → Run (List Entry)
  | [], schools => (Except.ok schools, [])
  | category :: rest, schools =>
    match getCoursesByCategory cfg m category.id with
    | (Except.error e, calls) => (Except.error e, calls)
    | (Except.ok courses, calls) =>
      match courseLoop cfg m count courses 0 with
      | (Except.error e, calls2) => (Except.error e, calls ++ calls2)
      | (Except.ok totalPassed, calls2) =>
        ((categoryLoop cfg m count rest (schools ++ [schoolEntry category totalPassed])).1,
          calls ++ calls2 ++
            (categoryLoop cfg m count rest (schools ++ [schoolEntry category totalPassed])).2)

/-- The part of `buildLeaderboard` before the sort: the array `schools` in
traversal order. -/
def collectSchools (cfg : Config) (m : Moodle) (count : JsInteger → Int → Nat) : Run (List Entry) :=
  match getCategories cfg m with
  | (Except.error e, calls) => (Except.error e, calls)
  | (Except.ok categories, calls) =>
    ((categoryLoop cfg m count categories []).1, calls ++ (categoryLoop cfg m count categories []).2)

/-- The method `Array.prototype.sort` with a comparator: a stable sort that
puts `a` before `b` when `cmp a b` is negative and after it when positive
(ECMAScript 2019 and later; the server uses the global `fetch`, so it runs on
an engine where the sort is stable). -/
def jsSort {α : Type} (cmp : α → α → Int) (xs : List α) : List α :=
  xs.insertionSort (fun a b => cmp a b ≤ 0)

/-- The comparator `(a, b) => b.tasksCompleted - a.tasksCompleted`. -/
def compareSchools (a b : Entry) : Int := (b.tasksCompleted : Int) - (a.tasksCompleted : Int)

/-- The function `buildLeaderboard` with `count` in place of
`countPassedAttempts`. -/
def buildLeaderboardWith (cfg : Config) (m : Moodle) (count : JsInteger → Int → Nat) :
    Run (List Entry) :=
  match collectSchools cfg m count with
  | (Except.ok schools, calls) => (Except.ok (jsSort compareSchools schools), calls)
  | (Except.error e, calls) => (Except.error e, calls)

/-- The function `buildLeaderboard`. -/
def buildLeaderboard (cfg : Config) (m : Moodle) : Run (List Entry) :=
  buildLeaderboardWith cfg m countPassedAttempts

/-- The function `buildMockLeaderboard`. -/
def buildMockLeaderboard : List Entry :=
  [ { id := none, name := some "School 1", shortname := "school_1", tasksCompleted := 245, logo := "/logos/school-1.png" },
    { id := none, name := some "School 2", shortname := "school_2", tasksCompleted := 198, logo := "/logos/school-2.png" },
    { id := none, name := some "School 3", shortname := "school_3", tasksCompleted := 176, logo := "/logos/school-3.png" },
    { id := none, name := some "School 4", shortname := "school_4", tasksCompleted := 104, logo := "/logos/school-4.png" },
    { id := none, name := some "School 5", shortname := "school_5", tasksCompleted := 99, logo := "/logos/school-5.png" },
    { id := none, name := some "School 6", shortname := "school_6", tasksCompleted := 93, logo := "/logos/school-6.png" },
    { id := none, name := some "School 7", shortname := "school_7", tasksCompleted := 88, logo := "/logos/school-7.png" },
    { id := none, name := some "School 8", shortname := "school_8", tasksCompleted := 84, logo := "/logos/school-8.png" },
    { id := none, name := some "School 9", shortname := "school_9", tasksCompleted := 79, logo := "/logos/school-9.png" },
    { id := none, name := some "School 10", shortname := "school_10", tasksCompleted := 73, logo := "/logos/school-10.png" },
    { id := none, name := some "School 11", shortname := "school_11", tasksCompleted := 68, logo := "/logos/school-11.png" } ]

/-! ## Result cache and request handler -/

/-- The visible content of the `NodeCache` instance at the time of a request:
the keys that are set and not expired, with their values. Expiry happens
between requests and is not an action of the handler. The only values ever
stored are leaderboard arrays, and an array is truthy in `if (cached)`. -/
structure NodeCache where
  store : List (String × List Entry)
deriving DecidableEq, Repr

/-- The method `cache.get(key)`: `none` stands for `undefined`. -/
def NodeCache.get (c : NodeCache) (key : String) : Option (List Entry) :=
  (c.store.find? (fun kv => kv.1 == key)).map (fun kv => kv.2)

/-- The method `cache.set(key, value)`. -/
def NodeCache.set (c : NodeCache) (key : String) (value : List Entry) : NodeCache :=
  ⟨(key, value) :: c.store.filter (fun kv => kv.1 != key)⟩

/-- An access of the handler to the cache. -/
inductive CacheOp where
  | get (key : String)
  | set (key : String)
deriving DecidableEq, Repr

/-- What the handler sends: `res.json` with a source and data (status 200), or
status 500 with `error` and `hint`. -/
inductive Response where
  | json (source : String) (data : List Entry)
  | error500 (error : String) (hint : String)
deriving DecidableEq, Repr

/-- The static remediation hint of the 500 response. -/
def hintText : String :=
  "Make sure MOODLE_BASE_URL and MOODLE_TOKEN are set, and Web Services is enabled."

/-- Everything observable of one request: the response, the cache afterwards,
the cache accesses and the `moodleGet` invocations made. -/
structure Outcome where
  response : Response
  cache : NodeCache
  cacheOps : List CacheOp
  calls : List MoodleCall

/-- The handler of `GET /api/leaderboard`. -/
def leaderboardHandler (cfg : Config) (m : Moodle) (cache : NodeCache) : Outcome :=
  if cfg.USE_MOCK = true ∨ cfg.MOODLE_BASE_URL = "" ∨ cfg.MOODLE_TOKEN = "" then
    ⟨Response.json "mock" buildMockLeaderboard, cache, [], []⟩
  else
    match cache.get "leaderboard" with
    | some cached => ⟨Response.json "cache" cached, cache, [CacheOp.get "leaderboard"], []⟩
    | none =>
      match buildLeaderboard cfg m with
      | (Except.ok data, calls) =>
        ⟨Response.json "live" data, cache.set "leaderboard" data,
          [CacheOp.get "leaderboard", CacheOp.set "leaderboard"], calls⟩
      | (Except.error message, calls) =>
        ⟨Response.error500 (if message = "" then "Unknown error" else message) hintText,
          cache, [CacheOp.get "leaderboard"], calls⟩

/-! ## Remote data sets -/

/-- A remote data set: the categories, and for each request of the two list
functions the `courses`, respectively `quizzes`, field of the reply. -/
structure Dataset where
  categories : List Category
  courses : String → String → Option (List Course)
  quizzes : String → Option (List Quiz)

/-- The service that answers every call successfully from a data set. -/
def Dataset.remote (d : Dataset) : Moodle :=
  { core_course_get_categories := Except.ok d.categories
    core_course_get_courses_by_field := fun field value => Except.ok (d.courses field value)
    mod_quiz_get_quizzes_by_courses := fun courseid => Except.ok (d.quizzes courseid) }

/-- The courses `getCoursesByCategory` obtains for a category of a data set. -/
def Dataset.coursesOf (d : Dataset) (category : Category) : List Course :=
  (d.courses "category" category.id.toJsString).getD []

/-- The quizzes `getQuizzesByCourse` obtains for a course of a data set. -/
def Dataset.quizzesOf (d : Dataset) (course : Course) : List Quiz :=
  (d.quizzes course.id.toJsString).getD []

/-! ## Decimal digits -/

/-- A decimal digit character. -/
def isDigitChar (c : Char) : Bool := decide (48 ≤ c.toNat) && decide (c.toNat ≤ 57)

/-- The number a list of decimal digits denotes, continuing from `init`. -/
def digitsValue (init : Nat) (ds : List Char) : Nat :=
  ds.foldl (fun acc c => 10 * acc + (c.toNat - 48)) init

/-! ## Failing remote calls -/

/-- The course fetch of the category fails, or the quiz fetch of one of its
courses does. -/
def CategoryFetchFails (m : Moodle) (c : Category) : Prop :=
  (∃ e, m.core_course_get_courses_by_field "category" c.id.toJsString = Except.error e) ∨
  (∃ data, m.core_course_get_courses_by_field "category" c.id.toJsString = Except.ok data ∧
    ∃ k ∈ data.getD [], ∃ e, m.mod_quiz_get_quizzes_by_courses k.id.toJsString = Except.error e)

/-- Some remote call of the traversal fails: the category fetch, the course
fetch of a fetched category, or the quiz fetch of a fetched course. -/
def RemoteCallFails (m : Moodle) : Prop :=
  (∃ e, m.core_course_get_categories = Except.error e) ∨
  (∃ categories, m.core_course_get_categories = Except.ok categories ∧
    ∃ c ∈ categories, CategoryFetchFails m c)

/-! ## Characters of number texts -/

/-- What the first replace of `slugify` makes of a character that stands
alone: a character of `[a-z0-9]` stays, any other becomes a hyphen. -/
def hyphenate (c : Char) : Char := if isSlugChar c then c else '-'

/-- The characters of `category-` followed by a number text: `[a-z0-9]`, the
hyphen, the decimal point and the plus sign. -/
def isPlainChar (c : Char) : Bool := isSlugChar c || c == '-' || c == '.' || c == '+'

/-! ## Example inputs -/

/-- A configuration with the remote service configured and mock mode off. -/
def exampleConfig : Config :=
  { MOODLE_BASE_URL := "https://moodle.example", MOODLE_TOKEN := "token", USE_MOCK := false }

/-- The same configuration with mock mode on. -/
def mockConfig : Config :=
  { MOODLE_BASE_URL := "https://moodle.example", MOODLE_TOKEN := "token", USE_MOCK := true }

/-- Two categories: the first with one course holding one quiz of grade 50, the
second without courses. -/
def endToEndDataset : Dataset :=
  { categories := [⟨⟨1, by decide⟩, some "School #1!", none⟩, ⟨⟨2, by decide⟩, some "Second School", some "S2"⟩]
    courses := fun field value =>
      if field = "category" ∧ value = "1" then some [⟨⟨10, by decide⟩⟩] else none
    quizzes := fun courseid => if courseid = "10" then some [⟨⟨100, by decide⟩, some 50⟩] else none }

/-- Three categories with one course each, the course of category `n` holding
one quiz whose id is `n`. -/
def scoredDataset : Dataset :=
  { categories := [⟨⟨1, by decide⟩, some "Alpha", none⟩, ⟨⟨3, by decide⟩, some "Beta", none⟩, ⟨⟨4, by decide⟩, some "Gamma", none⟩]
    courses := fun _ value =>
      if value = "1" then some [⟨⟨1, by decide⟩⟩] else if value = "3" then some [⟨⟨3, by decide⟩⟩]
      else if value = "4" then some [⟨⟨1, by decide⟩⟩] else none
    quizzes := fun courseid =>
      if courseid = "1" then some [⟨⟨1, by decide⟩, none⟩]
      else if courseid = "3" then some [⟨⟨3, by decide⟩, none⟩] else none }

/-- A pass count that returns the quiz id. -/
def countByQuizId (quizId : JsInteger) (_passingGrade : Int) : Nat := quizId.value.toNat

/-- A category with a negative id and neither `idnumber` nor `name`. -/
def negativeIdCategory : Category := ⟨⟨-5, by decide⟩, none, none⟩

/-- A data set whose only category is `negativeIdCategory`. -/
def negativeIdDataset : Dataset :=
  { categories := [negativeIdCategory], courses := fun _ _ => none, quizzes := fun _ => none }

/-- Two categories with distinct ids whose names differ only in case. -/
def sameNameDataset : Dataset :=
  { categories := [⟨⟨1, by decide⟩, some "North School", none⟩, ⟨⟨2, by decide⟩, some "north school", none⟩]
    courses := fun _ _ => none, quizzes := fun _ => none }

/-- Two categories with neither `idnumber` nor `name`. -/
def unnamedDataset : Dataset :=
  { categories := [⟨⟨3, by decide⟩, none, none⟩, ⟨⟨7, by decide⟩, some "", some ""⟩]
    courses := fun _ _ => none, quizzes := fun _ => none }

/-- A service whose category fetch succeeds and whose course fetch fails for
category 2. -/
def failingRemote : Moodle :=
  { core_course_get_categories := Except.ok [⟨⟨1, by decide⟩, some "One", none⟩, ⟨⟨2, by decide⟩, some "Two", none⟩]
    core_course_get_courses_by_field := fun _ value =>
      if value = "2" then Except.error "Moodle API error: 503" else Except.ok (some [])
    mod_quiz_get_quizzes_by_courses := fun _ => Except.ok none }

/-- An empty cache. -/
def emptyCache : NodeCache := ⟨[]⟩

/-- A cache holding one entry under the key `leaderboard`. -/
def warmCache : NodeCache :=
  ⟨[("leaderboard", [⟨some ⟨9, by decide⟩, some "Nine", "nine", "/logos/nine.png", 4⟩])]⟩

/-- The number of remote calls as the formula with one call per quiz counts
them: `1 + sum(categories, 1 + sum(courses, 1 + count(quizzes)))`. -/
def callCountWithQuizCalls (d : Dataset) : Nat :=
  1 + (d.categories.map (fun c =>
    1 + ((d.coursesOf c).map (fun k => 1 + (d.quizzesOf k).length)).sum)).sum

/-- A category has neither `idnumber` nor `name`: each is absent or empty. -/
abbrev Category.unnamed (c : Category) : Prop :=
  (c.idnumber = none ∨ c.idnumber = some "") ∧ (c.name = none ∨ c.name = some "")

/-- Two categories whose `idnumber` and `name` hold no letter or digit, or are
missing. -/
def symbolDataset : Dataset :=
  { categories := [⟨⟨4, by decide⟩, some "!!!", some "???"⟩, ⟨⟨0, by decide⟩, none, none⟩]
    courses := fun _ _ => none, quizzes := fun _ => none }

/-- The entries the traversal builds on `scoredDataset` with `countByQuizId`,
in traversal order. -/
def scoredSchools : List Entry :=
  [⟨some ⟨1, by decide⟩, some "Alpha", "alpha", "/logos/alpha.png", 1⟩,
    ⟨some ⟨3, by decide⟩, some "Beta", "beta", "/logos/beta.png", 3⟩,
    ⟨some ⟨4, by decide⟩, some "Gamma", "gamma", "/logos/gamma.png", 1⟩]

/-- The live result on `endToEndDataset`. -/
def endToEndResult : List Entry :=
  [⟨some ⟨1, by decide⟩, some "School #1!", "school-1", "/logos/school-1.png", 0⟩,
    ⟨some ⟨2, by decide⟩, some "Second School", "s2", "/logos/s2.png", 0⟩]

/-- The Number `10^21`, the least non-negative integer printed in exponential
form: `String(1e21)` is `1e+21`. -/
def tenPow21 : JsInteger := ⟨1000000000000000000000, by decide⟩

/-- The Number `2^60`, printed with the 16 digits that identify the double:
`String(2 ** 60)` is `1152921504606847000`. -/
def twoPow60 : JsInteger := ⟨1152921504606846976, by decide⟩

/-- A category with the id `10^21` and neither `idnumber` nor `name`. -/
def hugeIdCategory : Category := ⟨tenPow21, none, none⟩

/-- A data set whose only category is `hugeIdCategory`. -/
def hugeIdDataset : Dataset :=
  { categories := [hugeIdCategory], courses := fun _ _ => none, quizzes := fun _ => none }

/-- A category with the id `10^21` whose name holds no letter or digit. -/
def hugeIdSymbolCategory : Category := ⟨tenPow21, some "!!!", none⟩

/-- A data set whose only category is `hugeIdSymbolCategory`. -/
def hugeIdSymbolDataset : Dataset :=
  { categories := [hugeIdSymbolCategory], courses := fun _ _ => none, quizzes := fun _ => none }

/-- Categories without `idnumber` and `name` with the ids 3, `2^60` and
`10^21`. -/
def largeIdDataset : Dataset :=
  { categories := [⟨⟨3, by decide⟩, none, none⟩, ⟨twoPow60, none, none⟩, ⟨tenPow21, none, none⟩]
    courses := fun _ _ => none, quizzes := fun _ => none }

/-! ## Facts about characters and the automaton -/

theorem isSlugChar_ne_hyphen {c : Char} (h : isSlugChar c = true) : c ≠ '-' := by
  intro hc
  subst hc
  revert h
  decide

theorem slugStep_of_slugChar {c : Char} (h : isSlugChar c = true) (st : SlugState)
    (hst : st ≠ SlugState.reject) : slugStep st c = SlugState.run := by
  cases st <;> simp_all [slugStep]

theorem foldl_slugStep_reject (s : List Char) :
    s.foldl slugStep SlugState.reject = SlugState.reject := by
  induction s with
  | nil => rfl
  | cons c cs ih => simpa [List.foldl, slugStep] using ih

/-! ## Removing a trailing run -/

theorem dropWhile_concat {α : Type} (p : α → Bool) (xs : List α) (a : α) :
    (xs ++ [a]).dropWhile p =
      if (xs.dropWhile p).isEmpty then (if p a = true then [] else [a])
      else xs.dropWhile p ++ [a] := by
  induction xs with
  | nil => by_cases ha : p a = true <;> simp [List.dropWhile, ha]
  | cons x xs ih =>
    by_cases hx : p x = true
    · simp [List.dropWhile, hx, ih]
    · simp [List.dropWhile, hx]

theorem rdropWhile_cons {α : Type} (p : α → Bool) (a : α) (l : List α) :
    (a :: l).rdropWhile p =
      if (l.rdropWhile p).isEmpty then (if p a = true then [] else [a])
      else a :: l.rdropWhile p := by
  unfold List.rdropWhile
  rw [List.reverse_cons, dropWhile_concat]
  have hrev : (l.reverse.dropWhile p).reverse.isEmpty = (l.reverse.dropWhile p).isEmpty := by
    cases l.reverse.dropWhile p <;> simp
  rw [hrev]
  split_ifs <;> simp

theorem rdropWhile_cons_of_neg {α : Type} (p : α → Bool) (a : α) (l : List α)
    (h : p a = false) : (a :: l).rdropWhile p = a :: l.rdropWhile p := by
  rw [rdropWhile_cons]
  by_cases hl : (l.rdropWhile p).isEmpty = true
  · have : l.rdropWhile p = [] := List.isEmpty_iff.mp hl
    simp [h, this]
  · simp [hl]

/-! ## Shape of the output of `slugify` -/

theorem strip_slugChar_cons {c : Char} (h : isSlugChar c = true) (l : List Char) :
    (c :: l).rdropWhile (fun c => c == '-') = c :: l.rdropWhile (fun c => c == '-') := by
  apply rdropWhile_cons_of_neg
  simpa using isSlugChar_ne_hyphen h

theorem strip_hyphen_cons (l : List Char) :
    ('-' :: l).rdropWhile (fun c => c == '-') =
      if (l.rdropWhile (fun c => c == '-')).isEmpty then []
      else '-' :: l.rdropWhile (fun c => c == '-') := by
  rw [rdropWhile_cons]
  simp

theorem replaceNonSlugRuns_slugChar {c : Char} (h : isSlugChar c = true) (b : Bool)
    (cs : List Char) : replaceNonSlugRuns b (c :: cs) = c :: replaceNonSlugRuns false cs := by
  simp [replaceNonSlugRuns, h]

theorem replaceNonSlugRuns_other_true {c : Char} (h : isSlugChar c = false) (cs : List Char) :
    replaceNonSlugRuns true (c :: cs) = replaceNonSlugRuns true cs := by
  simp [replaceNonSlugRuns, h]

theorem replaceNonSlugRuns_other_false {c : Char} (h : isSlugChar c = false) (cs : List Char) :
    replaceNonSlugRuns false (c :: cs) = '-' :: replaceNonSlugRuns true cs := by
  simp [replaceNonSlugRuns, h]

/-- Read from inside a run, the replaced text without its trailing hyphens is
accepted; read after a hyphen it is accepted too, unless nothing is left. -/
theorem foldl_slugStep_strip (l : List Char) :
    (∀ b, ((replaceNonSlugRuns b l).rdropWhile (fun c => c == '-')).foldl slugStep SlugState.run
        = SlugState.run) ∧
    ((replaceNonSlugRuns true l).rdropWhile (fun c => c == '-') ≠ [] →
      ((replaceNonSlugRuns true l).rdropWhile (fun c => c == '-')).foldl slugStep SlugState.hyphen
        = SlugState.run) := by
  induction l with
  | nil => simp [replaceNonSlugRuns]
  | cons c cs ih =>
    obtain ⟨ihA, ihB⟩ := ih
    cases hc : isSlugChar c with
    | true =>
      refine ⟨fun b => ?_, fun _ => ?_⟩
      · rw [replaceNonSlugRuns_slugChar hc, strip_slugChar_cons hc, List.foldl_cons,
          slugStep_of_slugChar hc _ (by decide)]
        exact ihA false
      · rw [replaceNonSlugRuns_slugChar hc, strip_slugChar_cons hc, List.foldl_cons,
          slugStep_of_slugChar hc _ (by decide)]
        exact ihA false
    | false =>
      refine ⟨fun b => ?_, fun hne => ?_⟩
      · cases b with
        | true =>
          rw [replaceNonSlugRuns_other_true hc]
          exact ihA true
        | false =>
          rw [replaceNonSlugRuns_other_false hc, strip_hyphen_cons]
          by_cases he : ((replaceNonSlugRuns true cs).rdropWhile (fun c => c == '-')).isEmpty = true
          · simp [he]
          · have hne : (replaceNonSlugRuns true cs).rdropWhile (fun c => c == '-') ≠ [] := by
              intro h0
              exact he (by rw [h0]; rfl)
            rw [if_neg he, List.foldl_cons]
            have hstep : slugStep SlugState.run '-' = SlugState.hyphen := by decide
            rw [hstep]
            exact ihB hne
      · rw [replaceNonSlugRuns_other_true hc] at hne ⊢
        exact ihB hne

/-- After a run has started, the replaced text does not begin with a hyphen. -/
theorem dropWhile_replaceNonSlugRuns_true (l : List Char) :
    (replaceNonSlugRuns true l).dropWhile (fun c => c == '-') = replaceNonSlugRuns true l := by
  induction l with
  | nil => simp [replaceNonSlugRuns]
  | cons c cs ih =>
    cases hc : isSlugChar c with
    | true =>
      rw [replaceNonSlugRuns_slugChar hc]
      exact List.dropWhile_cons_of_neg (by simpa using isSlugChar_ne_hyphen hc)
    | false =>
      rw [replaceNonSlugRuns_other_true hc]
      exact ih

theorem strip_replace_true (l : List Char) :
    (replaceNonSlugRuns true l).rdropWhile (fun c => c == '-') = [] ∨
      matchesSlugPattern ((replaceNonSlugRuns true l).rdropWhile (fun c => c == '-')) = true := by
  induction l with
  | nil => left; simp [replaceNonSlugRuns]
  | cons c cs ih =>
    cases hc : isSlugChar c with
    | true =>
      right
      rw [replaceNonSlugRuns_slugChar hc, strip_slugChar_cons hc]
      simp only [matchesSlugPattern, List.foldl_cons, decide_eq_true_eq]
      rw [slugStep_of_slugChar hc _ (by decide)]
      exact (foldl_slugStep_strip cs).1 false
    | false =>
      rw [replaceNonSlugRuns_other_true hc]
      exact ih

/-- The characters `slugify` returns are none, or match the pattern. -/
theorem slugifyChars_shape (s : List Char) :
    slugifyChars s = [] ∨ matchesSlugPattern (slugifyChars s) = true := by
  unfold slugifyChars stripEdgeHyphens
  generalize jsToLowerCase (jsTrim s) = l
  cases l with
  | nil => left; simp [replaceNonSlugRuns]
  | cons c cs =>
    cases hc : isSlugChar c with
    | true =>
      right
      have hne := isSlugChar_ne_hyphen hc
      rw [replaceNonSlugRuns_slugChar hc]
      have hd : (c :: replaceNonSlugRuns false cs).dropWhile (fun c => c == '-')
          = c :: replaceNonSlugRuns false cs :=
        List.dropWhile_cons_of_neg (by simpa using hne)
      rw [hd, strip_slugChar_cons hc]
      simp only [matchesSlugPattern, List.foldl_cons, decide_eq_true_eq]
      rw [slugStep_of_slugChar hc _ (by decide)]
      exact (foldl_slugStep_strip cs).1 false
    | false =>
      rw [replaceNonSlugRuns_other_false hc]
      have hd : ('-' :: replaceNonSlugRuns true cs).dropWhile (fun c => c == '-')
          = replaceNonSlugRuns true cs := by
        simp [List.dropWhile, dropWhile_replaceNonSlugRuns_true]
      rw [hd]
      exact strip_replace_true cs

theorem slugify_eq_empty_iff (s : String) : slugify s = "" ↔ slugifyChars s.data = [] := by
  unfold slugify
  constructor
  · intro h
    have := congrArg String.data h
    simpa using this
  · intro h
    rw [h]

theorem slugify_empty_or_safe (s : String) : slugify s = "" ∨ slugSafe (slugify s) = true := by
  rcases slugifyChars_shape s.data with h | h
  · left
    exact (slugify_eq_empty_iff s).mpr h
  · right
    exact h

/-! ## `slugify` is the identity on slug-safe text -/

theorem isSlugChar_of_slugStep_run {st : SlugState} {c : Char}
    (h : slugStep st c = SlugState.run) : isSlugChar c = true := by
  cases hc : isSlugChar c with
  | true => rfl
  | false =>
    cases st <;> simp [slugStep, hc] at h
    split_ifs at h

theorem slugStep_ne_reject {st : SlugState} {c : Char}
    (h : slugStep st c ≠ SlugState.reject) :
    isSlugChar c = true ∨ (st = SlugState.run ∧ c = '-' ∧ slugStep st c = SlugState.hyphen) := by
  cases hc : isSlugChar c with
  | true => exact Or.inl rfl
  | false =>
    right
    cases st <;> simp [slugStep, hc] at h ⊢
    exact h

theorem chars_of_accepted (s : List Char) :
    ∀ st, s.foldl slugStep st = SlugState.run → ∀ c ∈ s, isSlugChar c = true ∨ c = '-' := by
  induction s with
  | nil => intro _ _ c hc; cases hc
  | cons a as ih =>
    intro st h c hc
    rw [List.foldl_cons] at h
    have hne : slugStep st a ≠ SlugState.reject := by
      intro hr
      rw [hr, foldl_slugStep_reject] at h
      cases h
    rcases List.mem_cons.mp hc with rfl | hmem
    · rcases slugStep_ne_reject hne with h1 | ⟨_, h2, _⟩
      · exact Or.inl h1
      · exact Or.inr h2
    · exact ih _ h c hmem

theorem replaceNonSlugRuns_of_accepted (s : List Char) :
    ∀ st, s.foldl slugStep st = SlugState.run →
      replaceNonSlugRuns (decide (st = SlugState.hyphen)) s = s := by
  induction s with
  | nil => intro _ _; rfl
  | cons a as ih =>
    intro st h
    rw [List.foldl_cons] at h
    have hne : slugStep st a ≠ SlugState.reject := by
      intro hr
      rw [hr, foldl_slugStep_reject] at h
      cases h
    rcases slugStep_ne_reject hne with h1 | ⟨hst, ha, hstep⟩
    · have hrun : slugStep st a = SlugState.run := by
        apply slugStep_of_slugChar h1
        intro hr
        subst hr
        exact hne rfl
      rw [replaceNonSlugRuns_slugChar h1]
      rw [hrun] at h
      have := ih _ h
      simp only [reduceCtorEq, decide_False] at this
      rw [this]
    · subst hst
      subst ha
      rw [hstep] at h
      have := ih _ h
      simp only [decide_True] at this
      have hc : isSlugChar '-' = false := by decide
      simp only [reduceCtorEq, decide_False]
      rw [replaceNonSlugRuns_other_false hc, this]

theorem isSlugChar_range {c : Char} (h : isSlugChar c = true) :
    (97 ≤ c.toNat ∧ c.toNat ≤ 122) ∨ (48 ≤ c.toNat ∧ c.toNat ≤ 57) := by
  simpa [isSlugChar, Bool.or_eq_true, Bool.and_eq_true, decide_eq_true_eq] using h

theorem lowerChar_of_slugChar {c : Char} (h : isSlugChar c = true ∨ c = '-') :
    lowerChar c = [c] := by
  rcases h with h | rfl
  · have hr := isSlugChar_range h
    unfold lowerChar
    rw [if_neg (by omega), if_neg (by omega), if_neg (by omega)]
  · decide

theorem jsToLowerCase_of_chars (s : List Char) (h : ∀ c ∈ s, isSlugChar c = true ∨ c = '-') :
    jsToLowerCase s = s := by
  induction s with
  | nil => rfl
  | cons a as ih =>
    have ha := lowerChar_of_slugChar (h a (List.mem_cons_self _ _))
    have hrest := ih (fun c hc => h c (List.mem_cons_of_mem _ hc))
    unfold jsToLowerCase at hrest ⊢
    rw [List.flatMap_cons, ha, hrest]
    rfl

theorem isJsWhitespace_of_slugChar {c : Char} (h : isSlugChar c = true) :
    isJsWhitespace c = false := by
  have hr := isSlugChar_range h
  simp only [isJsWhitespace, Bool.or_eq_false_iff, Bool.and_eq_false_iff, decide_eq_false_iff_not,
    beq_eq_false_iff_ne, ne_eq]
  omega

/-- Dropping a leading and a trailing run changes nothing when the first and
the last element are kept. -/
theorem dropWhile_rdropWhile_eq_self {α : Type} (p : α → Bool) (a : α) (l : List α)
    (hhead : p a = false) (hlast : p ((a :: l).getLast (List.cons_ne_nil a l)) = false) :
    ((a :: l).dropWhile p).rdropWhile p = a :: l := by
  rw [List.dropWhile_cons_of_neg (by simp [hhead])]
  rw [List.rdropWhile_eq_self_iff]
  intro _
  simp [hlast]

theorem getLast_of_accepted (a : Char) (l : List Char)
    (h : (a :: l).foldl slugStep SlugState.start = SlugState.run) :
    isSlugChar ((a :: l).getLast (List.cons_ne_nil a l)) = true := by
  have hsplit := List.dropLast_append_getLast (List.cons_ne_nil a l)
  rw [← hsplit, List.foldl_append] at h
  exact isSlugChar_of_slugStep_run h

theorem slugifyChars_of_matches (s : List Char) (h : matchesSlugPattern s = true) :
    slugifyChars s = s := by
  simp only [matchesSlugPattern, decide_eq_true_eq] at h
  cases s with
  | nil => cases h
  | cons a l =>
    have hhead : isSlugChar a = true := by
      rw [List.foldl_cons] at h
      cases ha : isSlugChar a with
      | true => rfl
      | false =>
        simp only [slugStep, ha, Bool.false_eq_true, if_false] at h
        rw [foldl_slugStep_reject] at h
        cases h
    have hlast := getLast_of_accepted a l h
    unfold slugifyChars stripEdgeHyphens jsTrim
    rw [dropWhile_rdropWhile_eq_self _ a l (isJsWhitespace_of_slugChar hhead)
      (isJsWhitespace_of_slugChar hlast)]
    rw [jsToLowerCase_of_chars _ (chars_of_accepted _ _ h)]
    have hrep := replaceNonSlugRuns_of_accepted _ _ h
    simp only [reduceCtorEq, decide_False] at hrep
    rw [hrep]
    exact dropWhile_rdropWhile_eq_self _ a l (by simpa using isSlugChar_ne_hyphen hhead)
      (by simpa using isSlugChar_ne_hyphen hlast)

/-! ## Decimal digits of a natural number -/

theorem digitChar_lt_ten (d : Nat) (h : d < 10) :
    isDigitChar (Nat.digitChar d) = true ∧ (Nat.digitChar d).toNat - 48 = d := by
  interval_cases d <;> decide

theorem toDigitsCore_digits (fuel : Nat) :
    ∀ (n : Nat) (acc : List Char), (∀ c ∈ acc, isDigitChar c = true) →
      ∀ c ∈ Nat.toDigitsCore 10 fuel n acc, isDigitChar c = true := by
  induction fuel with
  | zero => intro n acc h; simpa [Nat.toDigitsCore] using h
  | succ fuel ih =>
    intro n acc h
    have hd := (digitChar_lt_ten (n % 10) (Nat.mod_lt _ (by decide))).1
    have hacc : ∀ c ∈ Nat.digitChar (n % 10) :: acc, isDigitChar c = true := by
      intro c hc
      rcases List.mem_cons.mp hc with rfl | hc
      · exact hd
      · exact h c hc
    simp only [Nat.toDigitsCore]
    split_ifs
    · exact hacc
    · exact ih _ _ hacc

theorem toDigitsCore_ne_nil (fuel : Nat) :
    ∀ (n : Nat) (acc : List Char), acc ≠ [] → Nat.toDigitsCore 10 fuel n acc ≠ [] := by
  induction fuel with
  | zero => intro n acc h; simpa [Nat.toDigitsCore] using h
  | succ fuel ih =>
    intro n acc _
    simp only [Nat.toDigitsCore]
    split_ifs
    · simp
    · exact ih _ _ (by simp)

theorem toDigitsCore_value (fuel : Nat) :
    ∀ (n : Nat) (acc : List Char), n < fuel →
      digitsValue 0 (Nat.toDigitsCore 10 fuel n acc) = digitsValue n acc := by
  induction fuel with
  | zero => intro n acc h; omega
  | succ fuel ih =>
    intro n acc hn
    have hd := (digitChar_lt_ten (n % 10) (Nat.mod_lt _ (by decide))).2
    simp only [Nat.toDigitsCore]
    split_ifs with h0
    · simp only [digitsValue, List.foldl_cons, hd]
      have : n % 10 = n := by omega
      simp [this]
    · rw [ih _ _ (by omega)]
      simp only [digitsValue, List.foldl_cons, hd]
      have : 10 * (n / 10) + n % 10 = n := by omega
      rw [this]

theorem toDigits_digits (n : Nat) : ∀ c ∈ Nat.toDigits 10 n, isDigitChar c = true :=
  toDigitsCore_digits _ _ _ (by simp)

theorem toDigits_ne_nil (n : Nat) : Nat.toDigits 10 n ≠ [] := by
  unfold Nat.toDigits
  simp only [Nat.toDigitsCore]
  split_ifs
  · simp
  · exact toDigitsCore_ne_nil _ _ _ (by simp)

theorem toDigits_value (n : Nat) : digitsValue 0 (Nat.toDigits 10 n) = n := by
  unfold Nat.toDigits
  rw [toDigitsCore_value _ _ _ (Nat.lt_succ_self n)]
  rfl

theorem toDigits_injective {a b : Nat} (h : Nat.toDigits 10 a = Nat.toDigits 10 b) : a = b := by
  rw [← toDigits_value a, ← toDigits_value b, h]

theorem isSlugChar_of_digit {c : Char} (h : isDigitChar c = true) : isSlugChar c = true := by
  simp only [isDigitChar, Bool.and_eq_true, decide_eq_true_eq] at h
  simp only [isSlugChar, Bool.or_eq_true, Bool.and_eq_true, decide_eq_true_eq]
  omega

theorem foldl_slugStep_digits (ds : List Char) (h : ∀ c ∈ ds, isDigitChar c = true) :
    ds.foldl slugStep SlugState.run = SlugState.run := by
  induction ds with
  | nil => rfl
  | cons d ds ih =>
    rw [List.foldl_cons, slugStep_of_slugChar (isSlugChar_of_digit (h d (List.mem_cons_self _ _)))
      _ (by decide)]
    exact ih (fun c hc => h c (List.mem_cons_of_mem _ hc))

/-- The text `category-` followed by one or more digits matches the pattern. -/
theorem category_digits_matches (ds : List Char) (hne : ds ≠ [])
    (hall : ∀ c ∈ ds, isDigitChar c = true) :
    matchesSlugPattern ("category-".data ++ ds) = true := by
  simp only [matchesSlugPattern, decide_eq_true_eq, List.foldl_append]
  have hpre : List.foldl slugStep SlugState.start "category-".data = SlugState.hyphen := by decide
  rw [hpre]
  cases ds with
  | nil => exact absurd rfl hne
  | cons d ds =>
    rw [List.foldl_cons, slugStep_of_slugChar (isSlugChar_of_digit (hall d (List.mem_cons_self _ _)))
      _ (by decide)]
    exact foldl_slugStep_digits ds (fun c hc => hall c (List.mem_cons_of_mem _ hc))

/-! ## The text of a number -/

theorem formatDecimal_digits (s n : Nat) (h : n ≤ 21) :
    formatDecimal s n ≠ [] ∧ ∀ c ∈ formatDecimal s n, isDigitChar c = true := by
  unfold formatDecimal
  rw [if_pos h]
  refine ⟨?_, ?_⟩
  · intro h0
    exact toDigits_ne_nil s (List.append_eq_nil.mp h0).1
  · intro c hc
    rcases List.mem_append.mp hc with h1 | h1
    · exact toDigits_digits s c h1
    · rw [(List.mem_replicate.mp h1).2]
      decide

theorem shortestSearch_snd (v n : Nat) :
    ∀ fuel k, (shortestSearch v n fuel k).2 = n := by
  intro fuel
  induction fuel with
  | zero => intro k; rfl
  | succ fuel ih =>
    intro k
    unfold shortestSearch
    cases shortestAt v n k with
    | some s => rfl
    | none => exact ih (k + 1)

theorem shortestDecimal_snd (v : Nat) :
    (shortestDecimal v).2 = (Nat.toDigits 10 v).length ∨
      ((shortestDecimal v).2 = (Nat.toDigits 10 v).length + 1 ∧
        roundToDouble (decimalValue 1 ((Nat.toDigits 10 v).length + 1)) = v) := by
  unfold shortestDecimal
  split_ifs with h
  · exact Or.inr ⟨rfl, h⟩
  · exact Or.inl (shortestSearch_snd _ _ _ _)

theorem toDigits_length_le (v : Nat) (h : v < 10 ^ 21) : (Nat.toDigits 10 v).length ≤ 21 :=
  Nat.toDigitsCore_length 10 (by decide) (v + 1) v 21 h (by decide)

theorem roundToDouble_ten_pow_21 : roundToDouble (decimalValue 1 22) = 10 ^ 21 := by decide

theorem shortestDecimal_snd_le (v : Nat) (h : v < 10 ^ 21) : (shortestDecimal v).2 ≤ 21 := by
  have hlen := toDigits_length_le v h
  rcases shortestDecimal_snd v with h1 | ⟨h1, h2⟩
  · omega
  · by_cases h21 : (Nat.toDigits 10 v).length = 21
    · rw [h21, roundToDouble_ten_pow_21] at h2
      omega
    · omega

/-- Below `10^21` the text of a number consists of digits only. -/
theorem natToJsString_digits (v : Nat) (h : v < 10 ^ 21) :
    natToJsString v ≠ [] ∧ ∀ c ∈ natToJsString v, isDigitChar c = true :=
  formatDecimal_digits _ _ (shortestDecimal_snd_le v h)

theorem toJsString_data_of_nonneg (x : JsInteger) (h : 0 ≤ x.value) :
    x.toJsString.data = natToJsString x.value.natAbs := by
  obtain ⟨n, hn⟩ := Int.eq_ofNat_of_zero_le h
  unfold JsInteger.toJsString
  rw [hn]
  rfl

/-- The text `category-<id>` matches the pattern for `0 ≤ id < 10^21`. -/
theorem category_fallback_matches (x : JsInteger) (h0 : 0 ≤ x.value) (h1 : x.value < 10 ^ 21) :
    matchesSlugPattern ("category-" ++ x.toJsString).data = true := by
  rw [String.data_append, toJsString_data_of_nonneg x h0]
  have hv : x.value.natAbs < 10 ^ 21 := by omega
  exact category_digits_matches _ (natToJsString_digits _ hv).1 (natToJsString_digits _ hv).2

/-- For `0 ≤ id < 10^21`, `slugify` leaves `category-<id>` as it is. -/
theorem slugify_category_fallback (x : JsInteger) (h0 : 0 ≤ x.value) (h1 : x.value < 10 ^ 21) :
    slugify ("category-" ++ x.toJsString) = "category-" ++ x.toJsString := by
  unfold slugify
  rw [slugifyChars_of_matches _ (category_fallback_matches x h0 h1)]

/-! ## `slugify` on text with single separators -/

theorem hyphenate_of_slugChar {c : Char} (h : isSlugChar c = true) : hyphenate c = c := by
  simp [hyphenate, h]

theorem hyphenate_of_other {c : Char} (h : isSlugChar c = false) : hyphenate c = '-' := by
  simp [hyphenate, h]

theorem isSlugChar_of_hyphenate {c : Char} (h : isSlugChar (hyphenate c) = true) :
    isSlugChar c = true := by
  cases hc : isSlugChar c with
  | true => rfl
  | false =>
    rw [hyphenate_of_other hc] at h
    revert h
    decide

theorem replaceNonSlugRuns_hyphenate (s : List Char) :
    ∀ st, (s.map hyphenate).foldl slugStep st = SlugState.run →
      replaceNonSlugRuns (decide (st = SlugState.hyphen)) s = s.map hyphenate := by
  induction s with
  | nil => intro _ _; rfl
  | cons a as ih =>
    intro st h
    rw [List.map_cons, List.foldl_cons] at h
    have hne : slugStep st (hyphenate a) ≠ SlugState.reject := by
      intro hr
      rw [hr, foldl_slugStep_reject] at h
      cases h
    cases ha : isSlugChar a with
    | true =>
      rw [hyphenate_of_slugChar ha] at h hne
      have hrun : slugStep st a = SlugState.run := by
        apply slugStep_of_slugChar ha
        intro hr
        subst hr
        exact hne rfl
      rw [hrun] at h
      have := ih _ h
      simp only [reduceCtorEq, decide_False] at this
      rw [replaceNonSlugRuns_slugChar ha, List.map_cons, hyphenate_of_slugChar ha, this]
    | false =>
      rw [hyphenate_of_other ha] at h hne
      rcases slugStep_ne_reject hne with h1 | ⟨hst, _, hstep⟩
      · exact absurd h1 (by decide)
      · subst hst
        rw [hstep] at h
        have := ih _ h
        simp only [decide_True] at this
        simp only [reduceCtorEq, decide_False]
        rw [replaceNonSlugRuns_other_false ha, List.map_cons, hyphenate_of_other ha, this]

theorem lowerChar_of_plain {c : Char} (h : isPlainChar c = true) : lowerChar c = [c] := by
  simp only [isPlainChar, Bool.or_eq_true, beq_iff_eq] at h
  rcases h with ((h | rfl) | rfl) | rfl
  · exact lowerChar_of_slugChar (Or.inl h)
  · decide
  · decide
  · decide

theorem jsToLowerCase_of_plain (s : List Char) (h : ∀ c ∈ s, isPlainChar c = true) :
    jsToLowerCase s = s := by
  induction s with
  | nil => rfl
  | cons a as ih =>
    have ha := lowerChar_of_plain (h a (List.mem_cons_self _ _))
    have hrest := ih (fun c hc => h c (List.mem_cons_of_mem _ hc))
    unfold jsToLowerCase at hrest ⊢
    rw [List.flatMap_cons, ha, hrest]
    rfl

/-- On text made of `[a-z0-9]`, hyphens, points and plus signs, whose
hyphenated form matches the pattern, `slugify` hyphenates each character. -/
theorem slugifyChars_of_plain (s : List Char) (hplain : ∀ c ∈ s, isPlainChar c = true)
    (h : matchesSlugPattern (s.map hyphenate) = true) :
    slugifyChars s = s.map hyphenate := by
  simp only [matchesSlugPattern, decide_eq_true_eq] at h
  cases s with
  | nil => cases h
  | cons a l =>
    have hhead2 : isSlugChar (hyphenate a) = true := by
      rw [List.map_cons, List.foldl_cons] at h
      cases ha : isSlugChar (hyphenate a) with
      | true => rfl
      | false =>
        simp only [slugStep, ha, Bool.false_eq_true, if_false] at h
        rw [foldl_slugStep_reject] at h
        cases h
    have hhead := isSlugChar_of_hyphenate hhead2
    have hlast2 : isSlugChar (hyphenate ((a :: l).getLast (List.cons_ne_nil a l))) = true := by
      have hsplit := List.dropLast_append_getLast (List.cons_ne_nil a l)
      rw [← hsplit, List.map_append, List.foldl_append] at h
      exact isSlugChar_of_slugStep_run h
    have hlast := isSlugChar_of_hyphenate hlast2
    have hmaplast : ((a :: l).map hyphenate).getLast (by simp)
        = (a :: l).getLast (List.cons_ne_nil a l) := by
      rw [List.getLast_map, hyphenate_of_slugChar hlast]
    unfold slugifyChars stripEdgeHyphens jsTrim
    rw [dropWhile_rdropWhile_eq_self _ a l (isJsWhitespace_of_slugChar hhead)
      (isJsWhitespace_of_slugChar hlast)]
    rw [jsToLowerCase_of_plain _ hplain]
    have hrep := replaceNonSlugRuns_hyphenate _ _ h
    simp only [reduceCtorEq, decide_False] at hrep
    rw [hrep, List.map_cons]
    refine dropWhile_rdropWhile_eq_self _ (hyphenate a) (l.map hyphenate) ?_ ?_
    · rw [hyphenate_of_slugChar hhead]
      simpa using isSlugChar_ne_hyphen hhead
    · have : (hyphenate a :: l.map hyphenate).getLast (List.cons_ne_nil _ _)
          = (a :: l).getLast (List.cons_ne_nil a l) := hmaplast
      rw [this]
      simpa using isSlugChar_ne_hyphen hlast

/-! ## Reading a number text back -/

theorem shortestAt_roundsTo (v n k s : Nat) (h : shortestAt v n k = some s) :
    roundToDouble (decimalValue s n) = v := by
  unfold shortestAt at h
  simp only at h
  split_ifs at h with c1 c2 c3 c4 c5 c6
  all_goals
    simp only [Option.some.injEq] at h
    subst h
    simp_all

theorem shortestSearch_roundsTo (v n : Nat) (hv : roundToDouble v = v)
    (hn : n = (Nat.toDigits 10 v).length) :
    ∀ fuel k, roundToDouble (decimalValue (shortestSearch v n fuel k).1 n) = v := by
  intro fuel
  induction fuel with
  | zero =>
    intro k
    simp only [shortestSearch, decimalValue, hn, Nat.sub_self, pow_zero, mul_one]
    exact hv
  | succ fuel ih =>
    intro k
    unfold shortestSearch
    cases hs : shortestAt v n k with
    | some s => exact shortestAt_roundsTo v n k s hs
    | none => exact ih (k + 1)

/-- The decimal chosen for a double is read back as that double. -/
theorem shortestDecimal_roundsTo (v : Nat) (hv : roundToDouble v = v) :
    roundToDouble (decimalValue (shortestDecimal v).1 (shortestDecimal v).2) = v := by
  unfold shortestDecimal
  split_ifs with h
  · exact h
  · rw [shortestSearch_snd]
    exact shortestSearch_roundsTo v _ hv rfl _ _

theorem digitsValue_append (i : Nat) (a b : List Char) :
    digitsValue i (a ++ b) = digitsValue (digitsValue i a) b := by
  simp [digitsValue, List.foldl_append]

theorem digitsValue_zeros (j : Nat) : ∀ i, digitsValue i (List.replicate j '0') = i * 10 ^ j := by
  induction j with
  | zero => intro i; simp [digitsValue]
  | succ j ih =>
    intro i
    have h0 : ('0' : Char).toNat - 48 = 0 := by decide
    have hstep : digitsValue i (List.replicate (j + 1) '0')
        = digitsValue (10 * i + 0) (List.replicate j '0') := by
      simp only [digitsValue, List.replicate_succ, List.foldl_cons, h0]
    rw [hstep, ih, pow_succ]
    ring

theorem formatDecimal_value (s n : Nat) (h : n ≤ 21) :
    digitsValue 0 (formatDecimal s n) = decimalValue s n := by
  unfold formatDecimal decimalValue
  rw [if_pos h, digitsValue_append, toDigits_value, digitsValue_zeros]

theorem map_hyphenate_digits (ds : List Char) (h : ∀ c ∈ ds, isDigitChar c = true) :
    ds.map hyphenate = ds := by
  induction ds with
  | nil => rfl
  | cons d ds ih =>
    rw [List.map_cons, hyphenate_of_slugChar (isSlugChar_of_digit (h d (List.mem_cons_self _ _))),
      ih (fun c hc => h c (List.mem_cons_of_mem _ hc))]

/-- The hyphenated exponential form: the digits of `s`, with a hyphen after
the first when there are more, then `e-` and the digits of `n - 1`. -/
theorem formatDecimal_exponential (s n : Nat) (h : ¬ n ≤ 21) :
    ∃ d rest, Nat.toDigits 10 s = d :: rest ∧
      (formatDecimal s n).map hyphenate
        = (if rest = [] then [d] else d :: '-' :: rest) ++ 'e' :: '-' :: Nat.toDigits 10 (n - 1) := by
  cases hds : Nat.toDigits 10 s with
  | nil => exact absurd hds (toDigits_ne_nil s)
  | cons d rest =>
    refine ⟨d, rest, rfl, ?_⟩
    have hall := toDigits_digits s
    rw [hds] at hall
    have hd : hyphenate d = d :=
      hyphenate_of_slugChar (isSlugChar_of_digit (hall d (List.mem_cons_self _ _)))
    have hrest : rest.map hyphenate = rest :=
      map_hyphenate_digits rest (fun c hc => hall c (List.mem_cons_of_mem _ hc))
    have hex := map_hyphenate_digits _ (toDigits_digits (n - 1))
    have hp : hyphenate '.' = '-' := by decide
    have he : hyphenate 'e' = 'e' := by decide
    have hplus : hyphenate '+' = '-' := by decide
    unfold formatDecimal
    rw [if_neg h, hds]
    simp only
    by_cases hr : rest = []
    · simp [hr, hd, he, hplus, hex]
    · simp [hr, hd, hp, he, hplus, hex, hrest]

theorem isDigitChar_ne_e {c : Char} (h : isDigitChar c = true) : c ≠ 'e' := by
  intro hc
  subst hc
  revert h
  decide

theorem append_cons_cancel {α : Type} (x : α) :
    ∀ (l1 l2 r1 r2 : List α), x ∉ l1 → x ∉ l2 → l1 ++ x :: r1 = l2 ++ x :: r2 →
      l1 = l2 ∧ r1 = r2 := by
  intro l1
  induction l1 with
  | nil =>
    intro l2 r1 r2 _ h2 h
    cases l2 with
    | nil => simpa using h
    | cons b l2 =>
      simp only [List.nil_append, List.cons_append, List.cons.injEq] at h
      exact absurd (h.1 ▸ List.mem_cons_self _ _) h2
  | cons a l1 ih =>
    intro l2 r1 r2 h1 h2 h
    cases l2 with
    | nil =>
      simp only [List.nil_append, List.cons_append, List.cons.injEq] at h
      exact absurd (h.1 ▸ List.mem_cons_self _ _) h1
    | cons b l2 =>
      simp only [List.cons_append, List.cons.injEq] at h
      obtain ⟨hl, hr⟩ := ih l2 r1 r2 (fun hm => h1 (List.mem_cons_of_mem _ hm))
        (fun hm => h2 (List.mem_cons_of_mem _ hm)) h.2
      exact ⟨by rw [h.1, hl], hr⟩

theorem mantissa_no_e (d : Char) (rest : List Char)
    (hall : ∀ c ∈ d :: rest, isDigitChar c = true) :
    'e' ∉ (if rest = [] then [d] else d :: '-' :: rest) := by
  intro hmem
  have hd := isDigitChar_ne_e (hall d (List.mem_cons_self _ _))
  split_ifs at hmem with hr
  · simp only [List.mem_singleton] at hmem
    exact hd hmem.symm
  · simp only [List.mem_cons] at hmem
    rcases hmem with h | h | h
    · exact hd h.symm
    · revert h
      decide
    · exact isDigitChar_ne_e (hall _ (List.mem_cons_of_mem _ h)) rfl

theorem mantissa_filter (d : Char) (rest : List Char)
    (hall : ∀ c ∈ d :: rest, isDigitChar c = true) :
    (if rest = [] then [d] else d :: '-' :: rest).filter isDigitChar = d :: rest := by
  have hd := hall d (List.mem_cons_self _ _)
  have hrest : rest.filter isDigitChar = rest :=
    List.filter_eq_self.mpr (fun c hc => hall c (List.mem_cons_of_mem _ hc))
  have hh : isDigitChar '-' = false := by decide
  split_ifs with hr
  · simp [hd, hr]
  · simp [List.filter_cons, hd, hh, hrest]

/-- Two doubles whose texts hyphenate to the same characters are equal. -/
theorem natToJsString_hyphenate_injective (a b : Nat) (ha : roundToDouble a = a)
    (hb : roundToDouble b = b)
    (h : (natToJsString a).map hyphenate = (natToJsString b).map hyphenate) : a = b := by
  have hra := shortestDecimal_roundsTo a ha
  have hrb := shortestDecimal_roundsTo b hb
  unfold natToJsString at h
  generalize (shortestDecimal a).1 = s at h hra
  generalize (shortestDecimal a).2 = n at h hra
  generalize (shortestDecimal b).1 = s2 at h hrb
  generalize (shortestDecimal b).2 = n2 at h hrb
  by_cases hn : n ≤ 21
  · have hda := formatDecimal_digits s n hn
    rw [map_hyphenate_digits _ hda.2] at h
    by_cases hn2 : n2 ≤ 21
    · have hdb := formatDecimal_digits s2 n2 hn2
      rw [map_hyphenate_digits _ hdb.2] at h
      have hval := congrArg (digitsValue 0) h
      rw [formatDecimal_value s n hn, formatDecimal_value s2 n2 hn2] at hval
      rw [← hra, ← hrb, hval]
    · obtain ⟨d, rest, _, hform⟩ := formatDecimal_exponential s2 n2 hn2
      rw [hform] at h
      have hmem : 'e' ∈ formatDecimal s n := by
        rw [h]
        simp
      exact absurd rfl (isDigitChar_ne_e (hda.2 _ hmem))
  · obtain ⟨d, rest, hds, hform⟩ := formatDecimal_exponential s n hn
    rw [hform] at h
    by_cases hn2 : n2 ≤ 21
    · have hdb := formatDecimal_digits s2 n2 hn2
      rw [map_hyphenate_digits _ hdb.2] at h
      have hmem : 'e' ∈ formatDecimal s2 n2 := by
        rw [← h]
        simp
      exact absurd rfl (isDigitChar_ne_e (hdb.2 _ hmem))
    · obtain ⟨d2, rest2, hds2, hform2⟩ := formatDecimal_exponential s2 n2 hn2
      rw [hform2] at h
      have hall : ∀ c ∈ d :: rest, isDigitChar c = true := by
        rw [← hds]
        exact toDigits_digits s
      have hall2 : ∀ c ∈ d2 :: rest2, isDigitChar c = true := by
        rw [← hds2]
        exact toDigits_digits s2
      obtain ⟨hm, hx⟩ := append_cons_cancel 'e' _ _ _ _ (mantissa_no_e d rest hall)
        (mantissa_no_e d2 rest2 hall2) h
      have hs : s = s2 := by
        apply toDigits_injective
        rw [hds, hds2, ← mantissa_filter d rest hall, ← mantissa_filter d2 rest2 hall2, hm]
      have hn3 : n - 1 = n2 - 1 := by
        apply toDigits_injective
        simpa using hx
      have hn4 : n = n2 := by omega
      rw [← hra, ← hrb, hs, hn4]

theorem foldl_slugStep_digits_hyphen (ds : List Char) (hne : ds ≠ [])
    (h : ∀ c ∈ ds, isDigitChar c = true) :
    ds.foldl slugStep SlugState.hyphen = SlugState.run := by
  cases ds with
  | nil => exact absurd rfl hne
  | cons d ds =>
    rw [List.foldl_cons, slugStep_of_slugChar (isSlugChar_of_digit (h d (List.mem_cons_self _ _)))
      _ (by decide)]
    exact foldl_slugStep_digits ds (fun c hc => h c (List.mem_cons_of_mem _ hc))

/-- The text `category-` followed by a hyphenated number text matches the
pattern. -/
theorem category_number_matches (v : Nat) :
    matchesSlugPattern ("category-".data ++ (natToJsString v).map hyphenate) = true := by
  unfold natToJsString
  generalize (shortestDecimal v).1 = s
  generalize (shortestDecimal v).2 = n
  by_cases hn : n ≤ 21
  · have hd := formatDecimal_digits s n hn
    rw [map_hyphenate_digits _ hd.2]
    exact category_digits_matches _ hd.1 hd.2
  · obtain ⟨d, rest, hds, hform⟩ := formatDecimal_exponential s n hn
    rw [hform]
    have hall : ∀ c ∈ d :: rest, isDigitChar c = true := by
      rw [← hds]
      exact toDigits_digits s
    have hd := isSlugChar_of_digit (hall d (List.mem_cons_self _ _))
    have hrest : ∀ c ∈ rest, isDigitChar c = true := fun c hc => hall c (List.mem_cons_of_mem _ hc)
    have hpre : List.foldl slugStep SlugState.start "category-".data = SlugState.hyphen := by
      decide
    have hmant : List.foldl slugStep SlugState.hyphen (if rest = [] then [d] else d :: '-' :: rest)
        = SlugState.run := by
      split_ifs with hr
      · rw [List.foldl_cons, slugStep_of_slugChar hd _ (by decide)]
        rfl
      · rw [List.foldl_cons, slugStep_of_slugChar hd _ (by decide), List.foldl_cons]
        have hstep : slugStep SlugState.run '-' = SlugState.hyphen := by decide
        rw [hstep]
        exact foldl_slugStep_digits_hyphen rest hr hrest
    have he : slugStep SlugState.run 'e' = SlugState.run := by decide
    have hh : slugStep SlugState.run '-' = SlugState.hyphen := by decide
    simp only [matchesSlugPattern, decide_eq_true_eq, List.foldl_append, hpre, hmant,
      List.foldl_cons, he, hh]
    exact foldl_slugStep_digits_hyphen _ (toDigits_ne_nil _) (toDigits_digits _)

theorem isPlainChar_of_digit {c : Char} (h : isDigitChar c = true) : isPlainChar c = true := by
  simp [isPlainChar, isSlugChar_of_digit h]

theorem natToJsString_plain (v : Nat) : ∀ c ∈ natToJsString v, isPlainChar c = true := by
  unfold natToJsString formatDecimal
  generalize (shortestDecimal v).1 = s
  generalize (shortestDecimal v).2 = n
  intro c hc
  split_ifs at hc with hn
  · rcases List.mem_append.mp hc with h1 | h1
    · exact isPlainChar_of_digit (toDigits_digits s c h1)
    · rw [(List.mem_replicate.mp h1).2]
      decide
  · cases hds : Nat.toDigits 10 s with
    | nil => rw [hds] at hc; cases hc
    | cons d rest =>
      have hall := toDigits_digits s
      rw [hds] at hall hc
      simp only [List.mem_append] at hc
      rcases hc with (h1 | h1) | h1
      · split_ifs at h1
        · rw [List.mem_singleton.mp h1]
          exact isPlainChar_of_digit (hall d (List.mem_cons_self _ _))
        · rcases List.mem_cons.mp h1 with rfl | h2
          · exact isPlainChar_of_digit (hall _ (List.mem_cons_self _ _))
          · rcases List.mem_cons.mp h2 with rfl | h3
            · decide
            · exact isPlainChar_of_digit (hall c (List.mem_cons_of_mem _ h3))
      · simp only [List.mem_cons, List.mem_singleton, List.not_mem_nil, or_false] at h1
        rcases h1 with rfl | rfl <;> decide
      · exact isPlainChar_of_digit (toDigits_digits _ c h1)

/-- The characters `slugify` makes of `category-<id>` for a non-negative id. -/
theorem slugifyChars_category (v : Nat) :
    slugifyChars ("category-".data ++ natToJsString v)
      = "category-".data ++ (natToJsString v).map hyphenate := by
  have hpre : "category-".data.map hyphenate = "category-".data := by decide
  have hmap : ("category-".data ++ natToJsString v).map hyphenate
      = "category-".data ++ (natToJsString v).map hyphenate := by
    rw [List.map_append, hpre]
  rw [← hmap]
  apply slugifyChars_of_plain
  · intro c hc
    have hcat : ∀ c ∈ "category-".data, isPlainChar c = true := by decide
    rcases List.mem_append.mp hc with h1 | h1
    · exact hcat c h1
    · exact natToJsString_plain v c h1
  · rw [hmap]
    exact category_number_matches v

/-! ## The traversal on a data set -/

theorem moodleGet_configured {α : Type} (cfg : Config) (hb : cfg.MOODLE_BASE_URL ≠ "")
    (ht : cfg.MOODLE_TOKEN ≠ "") (call : MoodleCall) (reply : Except String α) :
    moodleGet cfg call reply = (reply, [call]) := by
  simp [moodleGet, hb, ht]

theorem quizLoop_stub (quizzes : List Quiz) :
    ∀ total, quizLoop countPassedAttempts quizzes total = total := by
  induction quizzes with
  | nil => intro _; rfl
  | cons q qs ih => intro total; simp [quizLoop, countPassedAttempts, ih]

theorem getCoursesByCategory_dataset (cfg : Config) (hb : cfg.MOODLE_BASE_URL ≠ "")
    (ht : cfg.MOODLE_TOKEN ≠ "") (d : Dataset) (c : Category) :
    ∃ call, getCoursesByCategory cfg d.remote c.id = (Except.ok (d.coursesOf c), [call]) := by
  refine ⟨⟨"core_course_get_courses_by_field",
    [("field", "category"), ("value", c.id.toJsString)]⟩, ?_⟩
  unfold getCoursesByCategory
  rw [moodleGet_configured cfg hb ht]
  rfl

theorem getQuizzesByCourse_dataset (cfg : Config) (hb : cfg.MOODLE_BASE_URL ≠ "")
    (ht : cfg.MOODLE_TOKEN ≠ "") (d : Dataset) (k : Course) :
    ∃ call, getQuizzesByCourse cfg d.remote k.id = (Except.ok (d.quizzesOf k), [call]) := by
  refine ⟨⟨"mod_quiz_get_quizzes_by_courses", [("courseids[0]", k.id.toJsString)]⟩, ?_⟩
  unfold getQuizzesByCourse
  rw [moodleGet_configured cfg hb ht]
  rfl

theorem courseLoop_dataset (cfg : Config) (hb : cfg.MOODLE_BASE_URL ≠ "")
    (ht : cfg.MOODLE_TOKEN ≠ "") (d : Dataset) (courses : List Course) :
    ∀ total, ∃ calls, courseLoop cfg d.remote countPassedAttempts courses total
        = (Except.ok total, calls) ∧ calls.length = courses.length := by
  induction courses with
  | nil => intro total; exact ⟨[], rfl, rfl⟩
  | cons k ks ih =>
    intro total
    obtain ⟨call, hq⟩ := getQuizzesByCourse_dataset cfg hb ht d k
    obtain ⟨calls, hrest, hlen⟩ := ih total
    refine ⟨call :: calls, ?_, by simp [hlen]⟩
    simp only [courseLoop, hq, quizLoop_stub, hrest]
    rfl

theorem categoryLoop_dataset (cfg : Config) (hb : cfg.MOODLE_BASE_URL ≠ "")
    (ht : cfg.MOODLE_TOKEN ≠ "") (d : Dataset) (categories : List Category) :
    ∀ schools, ∃ calls, categoryLoop cfg d.remote countPassedAttempts categories schools
        = (Except.ok (schools ++ categories.map (fun c => schoolEntry c 0)), calls) ∧
      calls.length = (categories.map (fun c => 1 + (d.coursesOf c).length)).sum := by
  induction categories with
  | nil => intro schools; exact ⟨[], by simp [categoryLoop], rfl⟩
  | cons c cs ih =>
    intro schools
    obtain ⟨call, hc⟩ := getCoursesByCategory_dataset cfg hb ht d c
    obtain ⟨calls2, hk, hlen2⟩ := courseLoop_dataset cfg hb ht d (d.coursesOf c) 0
    obtain ⟨calls3, hrest, hlen3⟩ := ih (schools ++ [schoolEntry c 0])
    refine ⟨[call] ++ calls2 ++ calls3, ?_, ?_⟩
    · simp only [categoryLoop, hc, hk, hrest]
      simp
    · simp [hlen2, hlen3]
      omega

theorem collectSchools_dataset (cfg : Config) (hb : cfg.MOODLE_BASE_URL ≠ "")
    (ht : cfg.MOODLE_TOKEN ≠ "") (d : Dataset) :
    ∃ calls, collectSchools cfg d.remote countPassedAttempts
        = (Except.ok (d.categories.map (fun c => schoolEntry c 0)), calls) ∧
      calls.length = 1 + (d.categories.map (fun c => 1 + (d.coursesOf c).length)).sum := by
  obtain ⟨calls, hloop, hlen⟩ := categoryLoop_dataset cfg hb ht d d.categories []
  refine ⟨⟨"core_course_get_categories", []⟩ :: calls, ?_, by simp [hlen]; omega⟩
  unfold collectSchools getCategories
  rw [moodleGet_configured cfg hb ht]
  have hcat : d.remote.core_course_get_categories = Except.ok d.categories := rfl
  simp only [hcat, hloop]
  rfl

theorem jsSort_all_zero (cs : List Category) :
    jsSort compareSchools (cs.map (fun c => schoolEntry c 0)) = cs.map (fun c => schoolEntry c 0) := by
  unfold jsSort
  apply List.Sorted.insertionSort_eq
  unfold List.Sorted
  rw [List.pairwise_map]
  exact List.pairwise_of_forall (by intro a b; simp [compareSchools, schoolEntry])

/-- With the placeholder pass count, a successful run returns the entries of
the categories in fetch order, after `1 + Σ (1 + courses)` invocations. -/
theorem buildLeaderboard_dataset (cfg : Config) (hb : cfg.MOODLE_BASE_URL ≠ "")
    (ht : cfg.MOODLE_TOKEN ≠ "") (d : Dataset) :
    ∃ calls, buildLeaderboard cfg d.remote
        = (Except.ok (d.categories.map (fun c => schoolEntry c 0)), calls) ∧
      calls.length = 1 + (d.categories.map (fun c => 1 + (d.coursesOf c).length)).sum := by
  obtain ⟨calls, hcol, hlen⟩ := collectSchools_dataset cfg hb ht d
  refine ⟨calls, ?_, hlen⟩
  unfold buildLeaderboard buildLeaderboardWith
  rw [hcol]
  simp only [jsSort_all_zero]

/-! ## Failure of a remote call -/

theorem moodleGet_error (α : Type) (cfg : Config) (call : MoodleCall) (e : String) :
    ∃ e2, (moodleGet cfg call (Except.error e : Except String α)).1 = Except.error e2 := by
  unfold moodleGet
  split_ifs
  · exact ⟨_, rfl⟩
  · exact ⟨_, rfl⟩

theorem moodleGet_ok {α : Type} (cfg : Config) (call : MoodleCall) (a : α) :
    (moodleGet cfg call (Except.ok a)).1 = Except.ok a ∨
      ∃ e2, (moodleGet cfg call (Except.ok a : Except String α)).1 = Except.error e2 := by
  unfold moodleGet
  split_ifs
  · exact Or.inr ⟨_, rfl⟩
  · exact Or.inl rfl

theorem getQuizzesByCourse_error (cfg : Config) (m : Moodle) (courseId : JsInteger) (e : String)
    (h : m.mod_quiz_get_quizzes_by_courses courseId.toJsString = Except.error e) :
    ∃ e2, (getQuizzesByCourse cfg m courseId).1 = Except.error e2 := by
  unfold getQuizzesByCourse
  rw [h]
  obtain ⟨e2, he2⟩ := moodleGet_error (Option (List Quiz)) cfg
    ⟨"mod_quiz_get_quizzes_by_courses", [("courseids[0]", courseId.toJsString)]⟩ e
  generalize moodleGet cfg _ (Except.error e : Except String (Option (List Quiz))) = r at he2 ⊢
  obtain ⟨r1, r2⟩ := r
  simp only at he2
  subst he2
  exact ⟨e2, rfl⟩

theorem getCoursesByCategory_error (cfg : Config) (m : Moodle) (categoryId : JsInteger) (e : String)
    (h : m.core_course_get_courses_by_field "category" categoryId.toJsString = Except.error e) :
    ∃ e2, (getCoursesByCategory cfg m categoryId).1 = Except.error e2 := by
  unfold getCoursesByCategory
  rw [h]
  obtain ⟨e2, he2⟩ := moodleGet_error (Option (List Course)) cfg
    ⟨"core_course_get_courses_by_field", [("field", "category"), ("value", categoryId.toJsString)]⟩ e
  generalize moodleGet cfg _ (Except.error e : Except String (Option (List Course))) = r at he2 ⊢
  obtain ⟨r1, r2⟩ := r
  simp only at he2
  subst he2
  exact ⟨e2, rfl⟩

theorem getCoursesByCategory_ok (cfg : Config) (m : Moodle) (categoryId : JsInteger)
    (data : Option (List Course))
    (h : m.core_course_get_courses_by_field "category" categoryId.toJsString = Except.ok data) :
    (getCoursesByCategory cfg m categoryId).1 = Except.ok (data.getD []) ∨
      ∃ e2, (getCoursesByCategory cfg m categoryId).1 = Except.error e2 := by
  unfold getCoursesByCategory
  rw [h]
  have hm := moodleGet_ok cfg
    ⟨"core_course_get_courses_by_field", [("field", "category"), ("value", categoryId.toJsString)]⟩
    data
  generalize moodleGet cfg _ (Except.ok data : Except String (Option (List Course))) = r at hm ⊢
  obtain ⟨r1, r2⟩ := r
  rcases hm with hm | ⟨e2, hm⟩
  · simp only at hm
    subst hm
    exact Or.inl rfl
  · simp only at hm
    subst hm
    exact Or.inr ⟨e2, rfl⟩

theorem courseLoop_error (cfg : Config) (m : Moodle) (count : JsInteger → Int → Nat)
    (courses : List Course)
    (h : ∃ k ∈ courses, ∃ e, m.mod_quiz_get_quizzes_by_courses k.id.toJsString = Except.error e) :
    ∀ total, ∃ e, (courseLoop cfg m count courses total).1 = Except.error e := by
  induction courses with
  | nil => obtain ⟨k, hk, _⟩ := h; cases hk
  | cons k0 ks ih =>
    intro total
    rcases hq : getQuizzesByCourse cfg m k0.id with ⟨r, calls⟩
    cases r with
    | error e => exact ⟨e, by simp only [courseLoop, hq]⟩
    | ok quizzes =>
      simp only [courseLoop, hq]
      apply ih
      obtain ⟨k, hk, e, he⟩ := h
      rcases List.mem_cons.mp hk with rfl | hk
      · obtain ⟨e2, he2⟩ := getQuizzesByCourse_error cfg m k.id e he
        rw [hq] at he2
        cases he2
      · exact ⟨k, hk, e, he⟩

theorem categoryLoop_error (cfg : Config) (m : Moodle) (count : JsInteger → Int → Nat)
    (categories : List Category) (h : ∃ c ∈ categories, CategoryFetchFails m c) :
    ∀ schools, ∃ e, (categoryLoop cfg m count categories schools).1 = Except.error e := by
  induction categories with
  | nil => obtain ⟨c, hc, _⟩ := h; cases hc
  | cons c0 cs ih =>
    intro schools
    rcases hc : getCoursesByCategory cfg m c0.id with ⟨r, calls⟩
    cases r with
    | error e => exact ⟨e, by simp only [categoryLoop, hc]⟩
    | ok courses =>
      rcases hk : courseLoop cfg m count courses 0 with ⟨r2, calls2⟩
      cases r2 with
      | error e => exact ⟨e, by simp only [categoryLoop, hc, hk]⟩
      | ok total =>
        simp only [categoryLoop, hc, hk]
        apply ih
        obtain ⟨c, hmem, hfail⟩ := h
        rcases List.mem_cons.mp hmem with rfl | hmem
        · exfalso
          rcases hfail with ⟨e, he⟩ | ⟨data, hdata, hquiz⟩
          · obtain ⟨e2, he2⟩ := getCoursesByCategory_error cfg m c.id e he
            rw [hc] at he2
            cases he2
          · rcases getCoursesByCategory_ok cfg m c.id data hdata with hok | ⟨e2, he2⟩
            · rw [hc] at hok
              simp only [Except.ok.injEq] at hok
              subst hok
              obtain ⟨e3, he3⟩ := courseLoop_error cfg m count _ hquiz 0
              rw [hk] at he3
              cases he3
            · rw [hc] at he2
              cases he2
        · exact ⟨c, hmem, hfail⟩

/-- A failing remote call makes `buildLeaderboard` throw. -/
theorem buildLeaderboardWith_error (cfg : Config) (m : Moodle) (count : JsInteger → Int → Nat)
    (h : RemoteCallFails m) : ∃ e, (buildLeaderboardWith cfg m count).1 = Except.error e := by
  have hcol : ∃ e, (collectSchools cfg m count).1 = Except.error e := by
    unfold collectSchools getCategories
    rcases h with ⟨e, he⟩ | ⟨categories, hcats, hfail⟩
    · rw [he]
      obtain ⟨e2, he2⟩ := moodleGet_error (List Category) cfg
        ⟨"core_course_get_categories", []⟩ e
      generalize moodleGet cfg _ (Except.error e : Except String (List Category)) = r at he2 ⊢
      obtain ⟨r1, r2⟩ := r
      simp only at he2
      subst he2
      exact ⟨e2, rfl⟩
    · rw [hcats]
      have hm := moodleGet_ok cfg ⟨"core_course_get_categories", []⟩ categories
      generalize moodleGet cfg _ (Except.ok categories : Except String (List Category)) = r
        at hm ⊢
      obtain ⟨r1, r2⟩ := r
      rcases hm with hm | ⟨e2, hm⟩
      · simp only at hm
        subst hm
        exact categoryLoop_error cfg m count categories hfail []
      · simp only at hm
        subst hm
        exact ⟨e2, rfl⟩
  obtain ⟨e, he⟩ := hcol
  unfold buildLeaderboardWith
  rcases hc : collectSchools cfg m count with ⟨r, calls⟩
  rw [hc] at he
  simp only at he
  subst he
  exact ⟨e, rfl⟩

/-! ## The sort -/

theorem compareSchools_le_iff (a b : Entry) :
    compareSchools a b ≤ 0 ↔ b.tasksCompleted ≤ a.tasksCompleted := by
  unfold compareSchools
  omega

theorem jsSort_perm (schools : List Entry) : (jsSort compareSchools schools).Perm schools :=
  List.perm_insertionSort _ schools

theorem jsSort_sorted (schools : List Entry) :
    (jsSort compareSchools schools).Pairwise
      (fun a b => b.tasksCompleted ≤ a.tasksCompleted) := by
  haveI : IsTotal Entry (fun a b => compareSchools a b ≤ 0) :=
    ⟨fun a b => by simp only [compareSchools_le_iff]; omega⟩
  haveI : IsTrans Entry (fun a b => compareSchools a b ≤ 0) :=
    ⟨fun a b c => by simp only [compareSchools_le_iff]; omega⟩
  have h := List.sorted_insertionSort (fun a b : Entry => compareSchools a b ≤ 0) schools
  exact List.Pairwise.imp (fun hab => (compareSchools_le_iff _ _).mp hab) h

theorem jsSort_stable (schools : List Entry) (k : Nat) :
    (jsSort compareSchools schools).filter (fun e => e.tasksCompleted == k)
      = schools.filter (fun e => e.tasksCompleted == k) := by
  have hpair : (schools.filter (fun e => e.tasksCompleted == k)).Pairwise
      (fun a b => compareSchools a b ≤ 0) := by
    apply List.pairwise_of_forall_mem_list
    intro a ha b hb
    have h1 := (List.mem_filter.mp ha).2
    have h2 := (List.mem_filter.mp hb).2
    simp only [beq_iff_eq] at h1 h2
    rw [compareSchools_le_iff]
    omega
  have hsub : List.Sublist (schools.filter (fun e => e.tasksCompleted == k))
      (jsSort compareSchools schools) :=
    List.sublist_insertionSort hpair (List.filter_sublist _)
  have hsub2 := hsub.filter (fun e => e.tasksCompleted == k)
  rw [List.filter_filter] at hsub2
  simp only [Bool.and_self] at hsub2
  have hlen := ((jsSort_perm schools).filter (fun e => e.tasksCompleted == k)).length_eq
  exact (hsub2.eq_of_length hlen.symm).symm

/-! ## Shortnames -/

theorem JsInteger.eq_of_value_eq {x y : JsInteger} (h : x.value = y.value) : x = y := by
  cases x
  cases y
  simp only at h
  subst h
  rfl

theorem fallback_ne_empty (x : JsInteger) : "category-" ++ x.toJsString ≠ "" := by
  intro h
  have h2 := congrArg String.length h
  rw [String.length_append] at h2
  have h3 : "category-".length = 9 := by decide
  have h4 : "".length = 0 := rfl
  omega

theorem jsOr_absent (a : Option String) (b : String) (h : a = none ∨ a = some "") :
    jsOr a b = b := by
  rcases h with rfl | rfl <;> simp [jsOr]

theorem deriveShortname_fallback (c : Category) (h1 : c.idnumber = none ∨ c.idnumber = some "")
    (h2 : c.name = none ∨ c.name = some "") (h3 : 0 ≤ c.id.value) (h4 : c.id.value < 10 ^ 21) :
    deriveShortname c = "category-" ++ c.id.toJsString := by
  unfold deriveShortname
  simp only [jsOr_absent _ _ h1, jsOr_absent _ _ h2, slugify_category_fallback c.id h3 h4]
  rw [if_neg (fallback_ne_empty _)]

theorem deriveShortname_safe (c : Category) (h : 0 ≤ c.id.value) (h4 : c.id.value < 10 ^ 21) :
    deriveShortname c ≠ "" ∧ slugSafe (deriveShortname c) = true := by
  unfold deriveShortname
  simp only
  split_ifs with he
  · exact ⟨fallback_ne_empty _, category_fallback_matches c.id h h4⟩
  · refine ⟨he, ?_⟩
    rcases slugify_empty_or_safe
      (jsOr c.idnumber (jsOr c.name ("category-" ++ c.id.toJsString))) with h0 | h0
    · exact absurd h0 he
    · exact h0

/-- The characters of the shortname of a category without `idnumber` and
`name` whose id is not negative: `category-` and the hyphenated text of the
id. -/
theorem deriveShortname_unnamed (c : Category) (h1 : c.idnumber = none ∨ c.idnumber = some "")
    (h2 : c.name = none ∨ c.name = some "") (h3 : 0 ≤ c.id.value) :
    (deriveShortname c).data
      = "category-".data ++ (natToJsString c.id.value.natAbs).map hyphenate := by
  have hslug : slugify ("category-" ++ c.id.toJsString)
      = String.mk ("category-".data ++ (natToJsString c.id.value.natAbs).map hyphenate) := by
    unfold slugify
    rw [String.data_append, toJsString_data_of_nonneg c.id h3, slugifyChars_category]
  have hne : slugify ("category-" ++ c.id.toJsString) ≠ "" := by
    rw [hslug]
    intro h0
    have h5 := congrArg String.data h0
    simp at h5
  unfold deriveShortname
  simp only [jsOr_absent _ _ h1, jsOr_absent _ _ h2]
  rw [if_neg hne, hslug]

/-- Categories without `idnumber` and `name` and with non-negative ids that
get the same shortname have the same id. -/
theorem deriveShortname_unnamed_injective (a b : Category)
    (ha : (a.idnumber = none ∨ a.idnumber = some "") ∧ (a.name = none ∨ a.name = some ""))
    (hb : (b.idnumber = none ∨ b.idnumber = some "") ∧ (b.name = none ∨ b.name = some ""))
    (ha0 : 0 ≤ a.id.value) (hb0 : 0 ≤ b.id.value)
    (h : deriveShortname a = deriveShortname b) : a.id = b.id := by
  have hdata := congrArg String.data h
  rw [deriveShortname_unnamed a ha.1 ha.2 ha0, deriveShortname_unnamed b hb.1 hb.2 hb0] at hdata
  have hnat := natToJsString_hyphenate_injective _ _ a.id.isNumber.1 b.id.isNumber.1
    (List.append_cancel_left hdata)
  apply JsInteger.eq_of_value_eq
  omega

theorem schoolEntry_shortname (c : Category) (total : Nat) :
    (schoolEntry c total).shortname = deriveShortname c := by
  simp only [schoolEntry]

theorem schoolEntry_logo (c : Category) (total : Nat) :
    (schoolEntry c total).logo = "/logos/" ++ (schoolEntry c total).shortname ++ ".png" := by
  simp only [schoolEntry]

/-! ## The claims -/

/-- C1. Decision policy of the handler of `GET /api/leaderboard`, for every
configuration, remote service and cache. (1) When `USE_MOCK` is true or the base
URL or the token is empty, the response is `source = "mock"` with the eleven
entries of `buildMockLeaderboard`, no remote call is made and the cache is
neither read nor written. (2) Otherwise, when the cache holds a value under
`leaderboard`, the response is `source = "cache"` with that value and no remote
call is made. (3) Otherwise, when `buildLeaderboard` succeeds with `r`, the
response is `source = "live"` with `r` and the cache then holds `r` under
`leaderboard`. -/
theorem leaderboardHandler_policy (cfg : Config) (m : Moodle) (cache : NodeCache) :
    ((cfg.USE_MOCK = true ∨ cfg.MOODLE_BASE_URL = "" ∨ cfg.MOODLE_TOKEN = "") →
      (leaderboardHandler cfg m cache).response = Response.json "mock" buildMockLeaderboard ∧
      buildMockLeaderboard.length = 11 ∧
      (leaderboardHandler cfg m cache).calls = [] ∧
      (leaderboardHandler cfg m cache).cacheOps = [] ∧
      (leaderboardHandler cfg m cache).cache = cache) ∧
    (¬(cfg.USE_MOCK = true ∨ cfg.MOODLE_BASE_URL = "" ∨ cfg.MOODLE_TOKEN = "") →
      ∀ cached, cache.get "leaderboard" = some cached →
        (leaderboardHandler cfg m cache).response = Response.json "cache" cached ∧
        (leaderboardHandler cfg m cache).calls = []) ∧
    (¬(cfg.USE_MOCK = true ∨ cfg.MOODLE_BASE_URL = "" ∨ cfg.MOODLE_TOKEN = "") →
      cache.get "leaderboard" = none →
        ∀ r calls, buildLeaderboard cfg m = (Except.ok r, calls) →
          (leaderboardHandler cfg m cache).response = Response.json "live" r ∧
          (leaderboardHandler cfg m cache).cache.get "leaderboard" = some r ∧
          (leaderboardHandler cfg m cache).calls = calls) := by
  refine ⟨fun h => ?_, fun h cached hc => ?_, fun h hc r calls hr => ?_⟩
  · simp [leaderboardHandler, h, buildMockLeaderboard]
  · simp [leaderboardHandler, h, hc]
  · have hH : leaderboardHandler cfg m cache
        = ⟨Response.json "live" r, cache.set "leaderboard" r,
            [CacheOp.get "leaderboard", CacheOp.set "leaderboard"], calls⟩ := by
      simp [leaderboardHandler, h, hc, hr]
    rw [hH]
    exact ⟨rfl, by simp [NodeCache.get, NodeCache.set], rfl⟩

/-- Witness of C1: the three branches on concrete requests. -/
theorem leaderboardHandler_policy_witness :
    (leaderboardHandler mockConfig failingRemote warmCache).response
        = Response.json "mock" buildMockLeaderboard ∧
    ((leaderboardHandler exampleConfig failingRemote warmCache).response
        = Response.json "cache"
            [⟨some ⟨9, by decide⟩, some "Nine", "nine", "/logos/nine.png", 4⟩] ∧
      (leaderboardHandler exampleConfig failingRemote warmCache).calls = []) ∧
    (leaderboardHandler exampleConfig endToEndDataset.remote emptyCache).cache.get "leaderboard"
        = some endToEndResult :=
  ⟨((leaderboardHandler_policy mockConfig failingRemote warmCache).1 (Or.inl rfl)).1,
    (leaderboardHandler_policy exampleConfig failingRemote warmCache).2.1 (by decide) _ rfl,
    ((leaderboardHandler_policy exampleConfig endToEndDataset.remote emptyCache).2.2
      (by decide) rfl _ _ rfl).2.1⟩

/-- C2. Fail-fast atomicity: on a configured, non-mock request that misses the
cache, when a remote call of the traversal fails (the category fetch, the
course fetch of a category, or the quiz fetch of a course), the handler answers
status 500 with a non-empty `error` and the hint, carries no leaderboard data,
and leaves the cache as it was. -/
theorem leaderboardHandler_fail_fast (cfg : Config) (m : Moodle) (cache : NodeCache)
    (hmock : cfg.USE_MOCK = false) (hb : cfg.MOODLE_BASE_URL ≠ "") (ht : cfg.MOODLE_TOKEN ≠ "")
    (hmiss : cache.get "leaderboard" = none) (hfail : RemoteCallFails m) :
    ∃ err, err ≠ "" ∧
      (leaderboardHandler cfg m cache).response = Response.error500 err hintText ∧
      (leaderboardHandler cfg m cache).cache = cache ∧
      CacheOp.set "leaderboard" ∉ (leaderboardHandler cfg m cache).cacheOps := by
  obtain ⟨e, he⟩ := buildLeaderboardWith_error cfg m countPassedAttempts hfail
  rcases hr : buildLeaderboard cfg m with ⟨r, calls⟩
  have hr2 : r = Except.error e := by
    unfold buildLeaderboard at hr
    rw [hr] at he
    exact he
  subst hr2
  refine ⟨if e = "" then "Unknown error" else e, ?_, ?_, ?_, ?_⟩
  · split_ifs with h0
    · decide
    · exact h0
  all_goals simp [leaderboardHandler, hmock, hb, ht, hmiss, hr]

/-- Witness of C2: the course fetch of the second category fails. -/
theorem leaderboardHandler_fail_fast_witness :
    ∃ err, err ≠ "" ∧
      (leaderboardHandler exampleConfig failingRemote emptyCache).response
        = Response.error500 err hintText ∧
      (leaderboardHandler exampleConfig failingRemote emptyCache).cache = emptyCache ∧
      CacheOp.set "leaderboard" ∉ (leaderboardHandler exampleConfig failingRemote emptyCache).cacheOps :=
  leaderboardHandler_fail_fast exampleConfig failingRemote emptyCache rfl (by decide) (by decide)
    rfl (Or.inr ⟨_, rfl, ⟨⟨2, by decide⟩, some "Two", none⟩, by simp,
      Or.inl ⟨"Moodle API error: 503", rfl⟩⟩)

/-- C3. Sort property: whatever pass count stands in for the placeholder, when
the traversal builds the entries `schools`, `buildLeaderboard` returns a
permutation of `schools` in which `tasksCompleted` never increases, and the
entries of each score keep their traversal order (the sort is stable). -/
theorem buildLeaderboardWith_sorted_stable (cfg : Config) (m : Moodle)
    (count : JsInteger → Int → Nat) (schools : List Entry) (calls : List MoodleCall)
    (h : collectSchools cfg m count = (Except.ok schools, calls)) :
    ∃ result, buildLeaderboardWith cfg m count = (Except.ok result, calls) ∧
      result.Perm schools ∧
      result.Pairwise (fun a b => b.tasksCompleted ≤ a.tasksCompleted) ∧
      ∀ k, result.filter (fun e => e.tasksCompleted == k)
        = schools.filter (fun e => e.tasksCompleted == k) := by
  refine ⟨jsSort compareSchools schools, ?_, jsSort_perm schools, jsSort_sorted schools,
    jsSort_stable schools⟩
  unfold buildLeaderboardWith
  rw [h]

/-- Witness of C3: scores 1, 3, 1 in traversal order. -/
theorem buildLeaderboardWith_sorted_stable_witness :
    ∃ result, buildLeaderboardWith exampleConfig scoredDataset.remote countByQuizId
        = (Except.ok result,
            (collectSchools exampleConfig scoredDataset.remote countByQuizId).2) ∧
      result.Perm scoredSchools ∧
      result.Pairwise (fun a b => b.tasksCompleted ≤ a.tasksCompleted) ∧
      ∀ k, result.filter (fun e => e.tasksCompleted == k)
        = scoredSchools.filter (fun e => e.tasksCompleted == k) :=
  buildLeaderboardWith_sorted_stable exampleConfig scoredDataset.remote countByQuizId _ _ rfl

/-- C4. Live result with the placeholder pass count: on every data set, with
the service configured, `buildLeaderboard` succeeds and returns one entry per
fetched category, in fetch order, each with the id and name of its category and
`tasksCompleted = 0`; the result is as long as the list of categories, and
`countPassedAttempts` is 0 for every quiz id and passing grade. -/
theorem buildLeaderboard_stub_result (cfg : Config) (hb : cfg.MOODLE_BASE_URL ≠ "")
    (ht : cfg.MOODLE_TOKEN ≠ "") (d : Dataset) :
    ∃ result calls, buildLeaderboard cfg d.remote = (Except.ok result, calls) ∧
      result.length = d.categories.length ∧
      result.map (fun e => (e.id, e.name, e.tasksCompleted))
        = d.categories.map (fun c => (some c.id, c.name, 0)) ∧
      ∀ quizId passingGrade, countPassedAttempts quizId passingGrade = 0 := by
  obtain ⟨calls, h, _⟩ := buildLeaderboard_dataset cfg hb ht d
  refine ⟨_, calls, h, by simp, ?_, fun _ _ => rfl⟩
  rw [List.map_map]
  rfl

/-- Witness of C4: the two-category data set. -/
theorem buildLeaderboard_stub_result_witness :
    ∃ result calls, buildLeaderboard exampleConfig endToEndDataset.remote
        = (Except.ok result, calls) ∧
      result.length = endToEndDataset.categories.length ∧
      result.map (fun e => (e.id, e.name, e.tasksCompleted))
        = endToEndDataset.categories.map (fun c => (some c.id, c.name, 0)) ∧
      ∀ quizId passingGrade, countPassedAttempts quizId passingGrade = 0 :=
  buildLeaderboard_stub_result exampleConfig (by decide) (by decide) endToEndDataset

/-- C5. Shape of the output of `slugify`: for every input string the result is
empty or matches `^[a-z0-9]+(-[a-z0-9]+)*$`; `slugify("School #1!")` is
`"school-1"` and `slugify("")` is `""`. -/
theorem slugify_shape :
    (∀ s : String, slugify s = "" ∨ slugSafe (slugify s) = true) ∧
      slugify "School #1!" = "school-1" ∧ slugify "" = "" :=
  ⟨slugify_empty_or_safe, by decide, by decide⟩

/-- A category without `idnumber` and `name` gets the shortname `category-5`
for the id `-5`, where `category-` followed by the id is `category--5`, and the
shortname `category-1e-21` for the id `10^21`, where `category-` followed by the
id is `category-1e+21`: the claim C6 as stated fails for both ids. -/
theorem shortname_fallback_fails :
    (negativeIdCategory.unnamed ∧
      negativeIdDataset.categories = [negativeIdCategory] ∧
      (buildLeaderboard exampleConfig negativeIdDataset.remote).1.toOption.map
        (List.map Entry.shortname) = some ["category-5"] ∧
      "category-" ++ negativeIdCategory.id.toJsString = "category--5") ∧
    (hugeIdCategory.unnamed ∧ 0 ≤ hugeIdCategory.id.value ∧
      hugeIdDataset.categories = [hugeIdCategory] ∧
      (buildLeaderboard exampleConfig hugeIdDataset.remote).1.toOption.map
        (List.map Entry.shortname) = some ["category-1e-21"] ∧
      "category-" ++ hugeIdCategory.id.toJsString = "category-1e+21") := by
  refine ⟨⟨?_, ?_, ?_, ?_⟩, ⟨?_, ?_, ?_, ?_, ?_⟩⟩ <;> decide

/-- C6, amended. Shortname fallback: on every data set, with the service
configured, `buildLeaderboard` succeeds and, for every category that has no
`idnumber` and no `name` (each absent or empty) and whose id is an integer with
`0 ≤ id < 10^21`, the shortname of its entry is `category-` followed by the id
as `String(id)` prints it, which is a run of decimal digits. -/
theorem shortname_fallback_in_range (cfg : Config) (hb : cfg.MOODLE_BASE_URL ≠ "")
    (ht : cfg.MOODLE_TOKEN ≠ "") (d : Dataset) :
    ∃ result calls, buildLeaderboard cfg d.remote = (Except.ok result, calls) ∧
      List.Forall₂
        (fun c e => c.unnamed → 0 ≤ c.id.value → c.id.value < 10 ^ 21 →
          e.shortname = "category-" ++ c.id.toJsString ∧
            ∀ ch ∈ c.id.toJsString.data, isDigitChar ch = true)
        d.categories result := by
  obtain ⟨calls, h, _⟩ := buildLeaderboard_dataset cfg hb ht d
  refine ⟨_, calls, h, ?_⟩
  rw [List.forall₂_map_right_iff, List.forall₂_same]
  intro c _ hun hid hlt
  rw [schoolEntry_shortname]
  refine ⟨deriveShortname_fallback c hun.1 hun.2 hid hlt, ?_⟩
  rw [toJsString_data_of_nonneg c.id hid]
  exact (natToJsString_digits _ (by omega)).2

/-- Witness of C6 amended: the ids 3 and `2^60` are in range, `10^21` is
not. -/
theorem shortname_fallback_in_range_witness :
    (∃ result calls, buildLeaderboard exampleConfig largeIdDataset.remote
        = (Except.ok result, calls) ∧
      List.Forall₂
        (fun c e => c.unnamed → 0 ≤ c.id.value → c.id.value < 10 ^ 21 →
          e.shortname = "category-" ++ c.id.toJsString ∧
            ∀ ch ∈ c.id.toJsString.data, isDigitChar ch = true)
        largeIdDataset.categories result) ∧
    (buildLeaderboard exampleConfig largeIdDataset.remote).1.toOption.map
      (List.map Entry.shortname)
      = some ["category-3", "category-1152921504606847000", "category-1e-21"] ∧
    largeIdDataset.categories.map (fun c => "category-" ++ c.id.toJsString)
      = ["category-3", "category-1152921504606847000", "category-1e+21"] :=
  ⟨shortname_fallback_in_range exampleConfig (by decide) (by decide) largeIdDataset,
    by decide, by decide⟩

/-- A category with the non-negative integer id `10^21` whose name holds no
letter or digit gets the shortname `category-1e+21`, which does not match
`^[a-z0-9]+(-[a-z0-9]+)*$`: the claim C7 as stated fails. -/
theorem shortname_unsafe_huge_id :
    0 ≤ hugeIdSymbolCategory.id.value ∧
    hugeIdSymbolDataset.categories = [hugeIdSymbolCategory] ∧
    (buildLeaderboard exampleConfig hugeIdSymbolDataset.remote).1.toOption.map
      (List.map Entry.shortname) = some ["category-1e+21"] ∧
    slugSafe "category-1e+21" = false := by
  decide

/-- C7, amended. Shortname invariant: on every data set, with the service
configured, `buildLeaderboard` succeeds and, for every category whose id is an
integer with `0 ≤ id < 10^21`, whatever its `idnumber` and `name` are, the
shortname of its entry is non-empty and matches `^[a-z0-9]+(-[a-z0-9]+)*$`. -/
theorem shortname_nonempty_slugSafe (cfg : Config) (hb : cfg.MOODLE_BASE_URL ≠ "")
    (ht : cfg.MOODLE_TOKEN ≠ "") (d : Dataset) :
    ∃ result calls, buildLeaderboard cfg d.remote = (Except.ok result, calls) ∧
      List.Forall₂
        (fun c e => 0 ≤ c.id.value → c.id.value < 10 ^ 21 →
          e.shortname ≠ "" ∧ slugSafe e.shortname = true)
        d.categories result := by
  obtain ⟨calls, h, _⟩ := buildLeaderboard_dataset cfg hb ht d
  refine ⟨_, calls, h, ?_⟩
  rw [List.forall₂_map_right_iff, List.forall₂_same]
  intro c _ hid hlt
  rw [schoolEntry_shortname]
  exact deriveShortname_safe c hid hlt

/-- Witness of C7 amended: keys without any letter or digit, and missing
keys. -/
theorem shortname_nonempty_slugSafe_witness :
    (∃ result calls, buildLeaderboard exampleConfig symbolDataset.remote
        = (Except.ok result, calls) ∧
      List.Forall₂
        (fun c e => 0 ≤ c.id.value → c.id.value < 10 ^ 21 →
          e.shortname ≠ "" ∧ slugSafe e.shortname = true)
        symbolDataset.categories result) ∧
    (buildLeaderboard exampleConfig symbolDataset.remote).1.toOption.map
      (List.map Entry.shortname) = some ["category-4", "category-0"] ∧
    symbolDataset.categories.map (fun c => decide (0 ≤ c.id.value ∧ c.id.value < 10 ^ 21))
      = [true, true] :=
  ⟨shortname_nonempty_slugSafe exampleConfig (by decide) (by decide) symbolDataset,
    by decide, by decide⟩

/-- Two categories with the distinct ids 1 and 2 and the names `North School`
and `north school` both get the shortname `north-school`: the claim C8 as
stated fails. -/
theorem shortname_collision :
    (sameNameDataset.categories.map (fun c => c.id)).Nodup ∧
    (buildLeaderboard exampleConfig sameNameDataset.remote).1.toOption.map
      (List.map Entry.shortname) = some ["north-school", "north-school"] := by
  decide

/-- C8, amended. On every data set whose categories have pairwise distinct,
non-negative integer ids and neither `idnumber` nor `name`, with the service
configured, `buildLeaderboard` succeeds and the shortnames of its entries are
pairwise distinct. -/
theorem shortname_fallback_distinct (cfg : Config) (hb : cfg.MOODLE_BASE_URL ≠ "")
    (ht : cfg.MOODLE_TOKEN ≠ "") (d : Dataset)
    (hun : ∀ c ∈ d.categories, c.unnamed ∧ 0 ≤ c.id.value)
    (hids : (d.categories.map (fun c => c.id)).Nodup) :
    ∃ result calls, buildLeaderboard cfg d.remote = (Except.ok result, calls) ∧
      (result.map (fun e => e.shortname)).Nodup := by
  obtain ⟨calls, h, _⟩ := buildLeaderboard_dataset cfg hb ht d
  refine ⟨_, calls, h, ?_⟩
  rw [List.map_map]
  have hcats : d.categories.Nodup := List.Nodup.of_map _ hids
  refine List.Nodup.map_on ?_ hcats
  intro a ha b hb2 hab
  simp only [Function.comp, schoolEntry_shortname] at hab
  have hidEq : a.id = b.id :=
    deriveShortname_unnamed_injective a b (hun a ha).1 (hun b hb2).1 (hun a ha).2 (hun b hb2).2 hab
  exact List.inj_on_of_nodup_map hids ha hb2 hidEq

/-- Witness of C8 amended: the ids 3, `2^60` and `10^21` without `idnumber`
and `name`. -/
theorem shortname_fallback_distinct_witness :
    ∃ result calls, buildLeaderboard exampleConfig largeIdDataset.remote
        = (Except.ok result, calls) ∧
      (result.map (fun e => e.shortname)).Nodup :=
  shortname_fallback_distinct exampleConfig (by decide) (by decide) largeIdDataset
    (by decide) (by decide)

/-- C9 on the code. Every entry of a live result has the logo path
`/logos/<shortname>.png`, but in mock mode the handler answers with the entries
of `buildMockLeaderboard`, none of which has: the first has shortname
`school_1` and logo `/logos/school-1.png`. -/
theorem mock_logo_mismatch :
    (∀ (c : Category) (total : Nat),
      (schoolEntry c total).logo = "/logos/" ++ (schoolEntry c total).shortname ++ ".png") ∧
    (∀ (m : Moodle) (cache : NodeCache),
      (leaderboardHandler mockConfig m cache).response
        = Response.json "mock" buildMockLeaderboard) ∧
    (∀ e ∈ buildMockLeaderboard, e.logo ≠ "/logos/" ++ e.shortname ++ ".png") ∧
    buildMockLeaderboard.head? =
      some ⟨none, some "School 1", "school_1", "/logos/school-1.png", 245⟩ := by
  refine ⟨schoolEntry_logo, fun _ _ => rfl, ?_, rfl⟩
  decide

/-- On the two-category data set one run makes 4 invocations of `moodleGet`,
while the formula with one call per quiz gives 5: the claim C10 as stated
fails. -/
theorem call_count_quiz_overcount :
    (buildLeaderboard exampleConfig endToEndDataset.remote).1.toOption.map List.length = some 2 ∧
    (buildLeaderboard exampleConfig endToEndDataset.remote).2.length = 4 ∧
    callCountWithQuizCalls endToEndDataset = 5 := by
  decide

/-- C10, amended. Remote call count: on every data set, with the service
configured, one run of `buildLeaderboard` succeeds after exactly
`1 + sum(categories, 1 + count(courses))` invocations of `moodleGet`: one for
the categories, one per category and one per course, and none per quiz. -/
theorem buildLeaderboard_call_count (cfg : Config) (hb : cfg.MOODLE_BASE_URL ≠ "")
    (ht : cfg.MOODLE_TOKEN ≠ "") (d : Dataset) :
    ∃ result calls, buildLeaderboard cfg d.remote = (Except.ok result, calls) ∧
      calls.length = 1 + (d.categories.map (fun c => 1 + (d.coursesOf c).length)).sum := by
  obtain ⟨calls, h, hlen⟩ := buildLeaderboard_dataset cfg hb ht d
  exact ⟨_, calls, h, hlen⟩

/-- Witness of C10 amended: the two-category data set. -/
theorem buildLeaderboard_call_count_witness :
    ∃ result calls, buildLeaderboard exampleConfig endToEndDataset.remote
        = (Except.ok result, calls) ∧
      calls.length
        = 1 + (endToEndDataset.categories.map
            (fun c => 1 + (endToEndDataset.coursesOf c).length)).sum :=
  buildLeaderboard_call_count exampleConfig (by decide) (by decide) endToEndDataset

end Leaderboard
